import Mathlib

/-!
# Part::Feature element history, related elements and geometric queries

A shallow embedding of `src/Mod/Part/App/PartFeature.cpp`.

* Pointers to document objects are `Option ObjId` (`none` is the null pointer).
* The shape handle (`TopoShape`) and the document object graph are external
  collaborators: their observable answers are fields of `TopoShape` and
  `Document`.
* `while(1)` / `do .. while` loops are iterated with a fuel bound; running out
  of fuel and dereferencing a null pointer are the two faults.
-/

namespace PartFeature

/-! ## Data model -/

/-- Identity of an `App::DocumentObject`; a pointer is an `Option ObjId`. -/
abbrev ObjId := Nat

/-- The character `char(0)`, the "no type" answer of `TopoShape::elementType`. -/
def NUL : Char := Char.ofNat 0

/-- The kernel enumeration `TopAbs_ShapeEnum`. -/
inductive TopAbs_ShapeEnum where
  | COMPOUND | COMPSOLID | SOLID | SHELL | FACE | WIRE | EDGE | VERTEX | SHAPE
  deriving DecidableEq, Repr

/-- What `TopoShape::getElementHistory(name,&original,&history)` reports: the
returned tag and the two out-parameters. -/
structure ElementHistory where
  tag : Int
  original : String
  intermediates : List String
  deriving DecidableEq, Repr

/-- The observable answers of one `TopoShape` handle. -/
structure TopoShape where
  /-- `isNull()` -/
  isNull : Bool
  /-- `getElementName(name,true)` -/
  getElementName : String → String
  /-- `elementType(name)`, `NUL` when the name has no type -/
  elementType : String → Char
  /-- `getElementHistory(name,&original,&history)` -/
  getElementHistory : String → ElementHistory
  /-- `getRelatedElements(name,sameType)`, the fast accessor of the handle -/
  getRelatedElements : String → Bool → List (String × String)
  /-- `countSubShapes(type)` -/
  countSubShapes : TopAbs_ShapeEnum → Nat

/-- The `Part::Feature::HistoryItem` record. -/
structure HistoryItem where
  obj : Option ObjId
  tag : Int
  element : String
  intermediates : List String
  deriving DecidableEq, Repr

/-- The two ways a run yields no value: the fuel of a loop is used up, or a
null pointer is dereferenced. -/
inductive Fault where
  | outOfFuel
  | nullDeref
  deriving DecidableEq, Repr

/-- The document object graph and the static tables of `TopoShape`, as far as
this file consults them. -/
structure Document where
  /-- `Feature::getTopoShape(obj,0,false,0,&owner)`: the resolved shape and the
  owner written through `powner` (the shape alone for `getTopoShape(obj)`). -/
  getTopoShape : Option ObjId → TopoShape × Option ObjId
  /-- `feature->getLinkedObject(true)->getDocument()->getObjectByID(tag)` -/
  linkedObjectByID : ObjId → Int → Option ObjId
  /-- `owner->getDocument()->getObjectByID(t)` -/
  getObjectByID : ObjId → Int → Option ObjId
  /-- The tag that the constructor `HistoryItem(obj,name)` gives its item. -/
  itemTag : Option ObjId → Int
  /-- `TopoShape::shapeType(type,true)` -/
  shapeType : Char → TopAbs_ShapeEnum
  /-- `TopoShape::shapeName(type)` -/
  shapeName : TopAbs_ShapeEnum → String

deriving instance DecidableEq for Except

/-! ## Loops -/

/-- Run a loop whose body either continues with a new state (`Sum.inl`) or
leaves the loop with a result (`Sum.inr`). -/
def iterate {σ ρ : Type} (body : σ → Except Fault (σ ⊕ ρ)) : Nat → σ → Except Fault ρ
  | 0, _ => .error .outOfFuel
  | fuel + 1, s =>
    match body s with
    | .error e => .error e
    | .ok (.inl next) => iterate body fuel next
    | .ok (.inr r) => .ok r

/-- The state `s` is followed, after `k` full passes of the body, by `t`. -/
def stepsTo {σ ρ : Type} (body : σ → Except Fault (σ ⊕ ρ)) : Nat → σ → σ → Prop
  | 0, s, t => s = t
  | k + 1, s, t => ∃ m, body s = .ok (.inl m) ∧ stepsTo body k m t

/-! ## Feature::getElementHistory -/

/-- The variables of the `do .. while` loop of `Feature::getElementHistory`. -/
structure HistoryState where
  feature : Option ObjId
  shape : TopoShape
  mapped : String
  ret : List HistoryItem

/-- The constructor `HistoryItem(obj,name)`. -/
def HistoryItem.create (doc : Document) (obj : Option ObjId) (name : String) : HistoryItem :=
  { obj := obj, tag := doc.itemTag obj, element := name, intermediates := [] }

/-- The item pushed at the top of a pass, once the lookup has filled its
`intermediates`. -/
def HistoryState.item (doc : Document) (s : HistoryState) : HistoryItem :=
  { HistoryItem.create doc s.feature s.mapped with
    intermediates := (s.shape.getElementHistory s.mapped).intermediates }

/-- `tag ? feature->getLinkedObject(true)->getDocument()->getObjectByID(tag) : 0` -/
def lookupProducer (doc : Document) (feature : Option ObjId) (tag : Int) :
    Except Fault (Option ObjId) :=
  if tag = 0 then .ok none
  else
    match feature with
    | none => .error .nullDeref
    | some f => .ok (doc.linkedObjectByID f tag)

/-- One pass of the `do .. while` body of `Feature::getElementHistory`. -/
def getElementHistoryBody (doc : Document) (recursive : Bool) (element_type : Char)
    (s : HistoryState) : Except Fault (HistoryState ⊕ List HistoryItem) :=
  let h := s.shape.getElementHistory s.mapped
  let ret := s.ret ++ [s.item doc]
  match lookupProducer doc s.feature h.tag with
  | .error e => .error e
  | .ok obj =>
    if !recursive then
      .ok (.inr (ret ++ [{ HistoryItem.create doc obj h.original with tag := h.tag }]))
    else
      match obj with
      | none => .ok (.inr ret)
      | some o =>
        if element_type ≠ NUL ∧
            h.intermediates.any (fun hist => s.shape.elementType hist != element_type) then
          .ok (.inr ret)
        else
          let shape := (doc.getTopoShape (some o)).1
          if element_type ≠ NUL ∧ shape.elementType h.original ≠ element_type then
            .ok (.inr ret)
          else
            .ok (.inl { feature := some o, shape := shape, mapped := h.original, ret := ret })

/-- The state in which `Feature::getElementHistory` enters its loop. -/
def historyInit (doc : Document) (feature : Option ObjId) (name : String) : HistoryState :=
  let shape := (doc.getTopoShape feature).1
  { feature := feature, shape := shape, mapped := shape.getElementName name, ret := [] }

/-- `Feature::getElementHistory(feature,name,recursive,sameType)` -/
def getElementHistory (doc : Document) (fuel : Nat) (feature : Option ObjId) (name : String)
    (recursive sameType : Bool) : Except Fault (List HistoryItem) :=
  let shape := (doc.getTopoShape feature).1
  let element_type := if sameType then shape.elementType name else NUL
  iterate (getElementHistoryBody doc recursive element_type) fuel (historyInit doc feature name)

/-- The upstream producer relation of the history walk: `g` is the object that
`getObjectByID` finds for a non-zero history tag of the shape of `f`. -/
def Upstream (doc : Document) (f g : ObjId) : Prop :=
  ∃ name : String, ((doc.getTopoShape (some f)).1.getElementHistory name).tag ≠ 0 ∧
    doc.linkedObjectByID f ((doc.getTopoShape (some f)).1.getElementHistory name).tag = some g

/-- Some intermediate name of the pass that starts in `s` has, in the shape of
that pass, a type other than `element_type`. -/
def HistoryState.typeDiverges (element_type : Char) (s : HistoryState) : Prop :=
  ∃ hist ∈ (s.shape.getElementHistory s.mapped).intermediates,
    s.shape.elementType hist ≠ element_type

/-! ## getElementSource -/

/-- The variables of the `while(1)` loop of `getElementSource`. -/
structure SourceState where
  owner : Option ObjId
  shape : TopoShape
  name : String
  tag : Int

/-- One pass of the `while(1)` body of `getElementSource`; every way out of the
loop returns `std::make_pair(tag,name)`. -/
def getElementSourceBody (doc : Document) (type : Char) (s : SourceState) :
    Except Fault (SourceState ⊕ (Int × String)) :=
  let h := s.shape.getElementHistory s.name
  if h.tag = 0 then .ok (.inr (s.tag, s.name))
  else
    match s.owner with
    | none => .error .nullDeref
    | some o =>
      match doc.getObjectByID o h.tag with
      | none => .ok (.inr (s.tag, s.name))
      | some obj =>
        if type ≠ NUL ∧ h.intermediates.any (fun hist => s.shape.elementType hist != type) then
          .ok (.inr (s.tag, s.name))
        else
          let r := doc.getTopoShape (some obj)
          if r.2.isNone || r.1.isNull then .ok (.inr (s.tag, s.name))
          else if type ≠ NUL ∧ r.1.elementType h.original ≠ type then .ok (.inr (s.tag, s.name))
          else .ok (.inl { owner := r.2, shape := r.1, name := h.original, tag := h.tag })

/-- The state in which `getElementSource` enters its loop. -/
def sourceInit (owner : Option ObjId) (shape : TopoShape) (name : String) : SourceState :=
  { owner := owner, shape := shape, name := name, tag := 0 }

/-- `getElementSource(owner,shape,name,type)` -/
def getElementSource (doc : Document) (fuel : Nat) (owner : Option ObjId) (shape : TopoShape)
    (name : String) (type : Char) : Except Fault (Int × String) :=
  iterate (getElementSourceBody doc type) fuel (sourceInit owner shape name)

/-- The lookup of the pass that starts in `s` answers tag 0: `s.name` is a root. -/
def SourceState.atRoot (s : SourceState) : Prop :=
  (s.shape.getElementHistory s.name).tag = 0

/-- The lookup of the pass that starts in `s` resolves to an object, and one of
its intermediate names has a type other than `type`. -/
def SourceState.typeDiverges (doc : Document) (type : Char) (s : SourceState) : Prop :=
  (s.shape.getElementHistory s.name).tag ≠ 0 ∧
    (∃ o obj, s.owner = some o ∧
      doc.getObjectByID o (s.shape.getElementHistory s.name).tag = some obj) ∧
    ∃ hist ∈ (s.shape.getElementHistory s.name).intermediates, s.shape.elementType hist ≠ type

/-- A completed hop, in the words of the specification and independent of the
loop body: the lookup of the current name gives a non-zero tag; the current
owner's document has an object with that tag; every intermediate name of the
lookup has the starting type in the current shape; the shape resolved for
that object has an owner and is not null; the pre-image name has the starting
type in the resolved shape. The resolved owner and shape, the pre-image name
and the tag are the next state `m`. -/
def SourceState.hopCompletes (doc : Document) (type : Char) (s m : SourceState) : Prop :=
  (s.shape.getElementHistory s.name).tag ≠ 0 ∧
    ∃ o obj, s.owner = some o
      ∧ doc.getObjectByID o (s.shape.getElementHistory s.name).tag = some obj
      ∧ (∀ hist ∈ (s.shape.getElementHistory s.name).intermediates,
          s.shape.elementType hist = type)
      ∧ (doc.getTopoShape (some obj)).2 ≠ none
      ∧ (doc.getTopoShape (some obj)).1.isNull = false
      ∧ (doc.getTopoShape (some obj)).1.elementType
          (s.shape.getElementHistory s.name).original = type
      ∧ m = { owner := (doc.getTopoShape (some obj)).2
              shape := (doc.getTopoShape (some obj)).1
              name := (s.shape.getElementHistory s.name).original
              tag := (s.shape.getElementHistory s.name).tag }

/-- The state `t` is reached from `s` by `k` completed hops. -/
def completedHops (doc : Document) (type : Char) : Nat → SourceState → SourceState → Prop
  | 0, s, t => s = t
  | k + 1, s, t => ∃ m, s.hopCompletes doc type m ∧ completedHops doc type k m t

/-! ## Feature::getRelatedElements -/

/-- Key of a related-element cache entry: source name, source tag, sameType. -/
abbrev RelationKey := String × Int × Bool

/-- The related-element cache of one shape handle. -/
abbrev RelationCache := List (RelationKey × List (String × String))

/-- Modelled from the spec: `TopoShape::getRelatedElementsCached`, whose body
is not in this file. The cache is a table from (source element name, source
object tag, same-type flag) to an ordered list of pairs; a hit hands out the
stored list. -/
def getRelatedElementsCached (cache : RelationCache) (name : String) (tag : Int)
    (sameType : Bool) : Option (List (String × String)) :=
  match cache.find? (fun e => decide (e.1 = (name, tag, sameType))) with
  | some e => some e.2
  | none => none

/-- Modelled from the spec: `TopoShape::cacheRelatedElements`, whose body is
not in this file. The list is stored under its key and shadows an older entry. -/
def cacheRelatedElements (cache : RelationCache) (name : String) (tag : Int)
    (sameType : Bool) (ret : List (String × String)) : RelationCache :=
  ((name, tag, sameType), ret) :: cache

/-- The canonical element name built by `ss << shapetype << i`. -/
def canonicalName (shapetype : String) (i : Nat) : String :=
  shapetype ++ toString i

/-- The `for(size_t i=1;i<=shape.countSubShapes(type);++i)` loop of
`Feature::getRelatedElements`, with `todo` passes left and `i` the running
index; `type` is the fourth argument of the `getElementSource` calls. -/
def enumerateRelated (doc : Document) (fuel : Nat) (owner : Option ObjId) (shape : TopoShape)
    (shapetype : String) (type : Char) (source : Int × String) :
    Nat → Nat → List (String × String) → Except Fault (List (String × String))
  | 0, _, ret => .ok ret
  | todo + 1, i, ret =>
    let element := canonicalName shapetype i
    let mapped := shape.getElementName element
    if mapped = element then
      enumerateRelated doc fuel owner shape shapetype type source todo (i + 1) ret
    else
      match getElementSource doc fuel owner shape mapped type with
      | .error e => .error e
      | .ok src =>
        if src = source then
          enumerateRelated doc fuel owner shape shapetype type source todo (i + 1)
            (ret ++ [(mapped, element)])
        else
          enumerateRelated doc fuel owner shape shapetype type source todo (i + 1) ret

/-- What a call of `Feature::getRelatedElements` leaves behind: the returned
list, the cache of the shape, and a ghost counter of the `countSubShapes`
calls made by the enumeration loop (one per test of the loop condition). -/
structure RelatedResult where
  ret : List (String × String)
  cache : RelationCache
  countCalls : Nat
  deriving DecidableEq, Repr

/-- The owner after `auto owner = obj; getTopoShape(obj,0,false,0,&owner)`: a
null `obj` returns before `*powner` is written. -/
def resolvedOwner (doc : Document) (obj : Option ObjId) : Option ObjId :=
  match obj with
  | none => none
  | some o => (doc.getTopoShape (some o)).2

/-- `Feature::getRelatedElements(obj,name,sameType)` on a shape whose cache is
`cache`. -/
def getRelatedElements (doc : Document) (fuel : Nat) (obj : Option ObjId) (name : String)
    (sameType : Bool) (cache : RelationCache) : Except Fault RelatedResult :=
  let owner := resolvedOwner doc obj
  let shape := (doc.getTopoShape obj).1
  let ret := shape.getRelatedElements name sameType
  if ret ≠ [] then .ok { ret := ret, cache := cache, countCalls := 0 }
  else
    let element_type := shape.elementType name
    let type := doc.shapeType element_type
    if type = .SHAPE then .ok { ret := ret, cache := cache, countCalls := 0 }
    else
      match getElementSource doc fuel owner shape name element_type with
      | .error e => .error e
      | .ok source =>
        if source.1 = 0 then .ok { ret := ret, cache := cache, countCalls := 0 }
        else
          match getRelatedElementsCached cache source.2 source.1 sameType with
          | some cached => .ok { ret := cached, cache := cache, countCalls := 0 }
          | none =>
            match enumerateRelated doc fuel owner shape (doc.shapeName type)
                (if sameType then element_type else NUL) source
                (shape.countSubShapes type) 1 ret with
            | .error e => .error e
            | .ok found =>
              .ok { ret := found
                    cache := cacheRelatedElements cache source.2 source.1 sameType found
                    countCalls := shape.countSubShapes type + 1 }

/-- The pair `(mapped, element)` of the canonical sub-element with index `i`. -/
def indexPair (shape : TopoShape) (shapetype : String) (i : Nat) : String × String :=
  (shape.getElementName (canonicalName shapetype i), canonicalName shapetype i)

/-- The canonical sub-element with index `i` is tracked (its mapped name differs
from its canonical name) and the source of its mapped name is `source`. -/
def keepsIndex (doc : Document) (fuel : Nat) (owner : Option ObjId) (shape : TopoShape)
    (shapetype : String) (type : Char) (source : Int × String) (i : Nat) : Bool :=
  decide (shape.getElementName (canonicalName shapetype i) ≠ canonicalName shapetype i) &&
    decide (getElementSource doc fuel owner shape
      (shape.getElementName (canonicalName shapetype i)) type = .ok source)

/-! ## Part::checkIntersection -/

/-- Handle of a kernel shape (`TopoDS_Shape`). -/
abbrev TopoDS_Shape := Nat

/-- A finished `BRepAlgoAPI_Fuse` or `BRepAlgoAPI_Common` builder. -/
structure BooleanOperation where
  IsDone : Bool
  Shape : TopoDS_Shape
  deriving DecidableEq, Repr

/-- The answers of the geometry kernel that `checkIntersection` consults. -/
structure Kernel where
  /-- `first_bb.IsOut(second_bb)` for the bounding boxes of two shapes, gap 0 -/
  IsOut : TopoDS_Shape → TopoDS_Shape → Bool
  /-- `BRepAlgoAPI_Fuse mkFuse(first,second)` -/
  Fuse : TopoDS_Shape → TopoDS_Shape → BooleanOperation
  /-- `BRepAlgoAPI_Common mkCommon(first,second)` -/
  Common : TopoDS_Shape → TopoDS_Shape → BooleanOperation
  /-- `shape.IsNull()` -/
  IsNull : TopoDS_Shape → Bool
  /-- The sub-shapes that an explorer started by `Init(shape,TopAbs_SOLID)` visits. -/
  solids : TopoDS_Shape → List TopoDS_Shape

/-- A `TopExp_Explorer`: the sub-shapes it has not visited yet. -/
structure TopExp_Explorer where
  rest : List TopoDS_Shape
  deriving DecidableEq, Repr

/-- `xp.More()` -/
def TopExp_Explorer.More (xp : TopExp_Explorer) : Bool :=
  !xp.rest.isEmpty

/-- `xp.Next()` -/
def TopExp_Explorer.Next (xp : TopExp_Explorer) : TopExp_Explorer :=
  { rest := xp.rest.tail }

/-- `Part::checkIntersection(first,second,quick,touch_is_intersection)` -/
def checkIntersection (K : Kernel) (first second : TopoDS_Shape)
    (quick touch_is_intersection : Bool) : Bool :=
  if K.IsOut first second && !touch_is_intersection then false
  else if quick && !K.IsOut first second then true
  else if touch_is_intersection then
    let mkFuse := K.Fuse first second
    if !mkFuse.IsDone then false
    else if K.IsNull mkFuse.Shape then false
    else
      let xp : TopExp_Explorer := { rest := K.solids mkFuse.Shape }
      if xp.More then
        let xp := xp.Next
        xp.More == false
      else false
  else
    let mkCommon := K.Common first second
    if !mkCommon.IsDone then false
    else if K.IsNull mkCommon.Shape then false
    else
      let xp : TopExp_Explorer := { rest := K.solids mkCommon.Shape }
      xp.More == true

/-- The precise path is reached: neither the bounding-box reject nor the quick
accept applies. -/
def reachesPrecisePath (K : Kernel) (first second : TopoDS_Shape)
    (quick touch_is_intersection : Bool) : Prop :=
  (K.IsOut first second && !touch_is_intersection) = false ∧
    (quick && !K.IsOut first second) = false

/-! ## Part::findAllFacesCutBy -/

/-- A point `gp_Pnt`; the coordinates are exact rationals, the rounding of
`double` arithmetic is not represented. -/
structure gp_Pnt where
  x : ℚ
  y : ℚ
  z : ℚ
  deriving DecidableEq, Repr

/-- `p.SquareDistance(q)` -/
def gp_Pnt.SquareDistance (p q : gp_Pnt) : ℚ :=
  (p.x - q.x) * (p.x - q.x) + (p.y - q.y) * (p.y - q.y) + (p.z - q.z) * (p.z - q.z)

/-- `Precision::Confusion()`, the kernel constant `1e-7`. -/
def Precision.Confusion : ℚ := 1 / 10000000

/-- One position of the `BRepIntCurveSurface_Inter` iterator: `Pnt()` and
`Face()`. -/
structure IntersectionPoint where
  Pnt : gp_Pnt
  Face : TopoDS_Shape
  deriving DecidableEq, Repr

/-- The record `Part::cutFaces`. -/
structure cutFaces where
  face : TopoDS_Shape
  distsq : ℚ
  deriving DecidableEq, Repr

/-- The loop of `Part::findAllFacesCutBy` over the positions `hits` of the
line/shape intersection, in the order of the iterator. `cog` is the centre of
mass of the face; `mkDirIsDone cog p` is `gce_MakeDir(cog,p).IsDone()` and
`isOpposite cog p` is `mkDir.Value().IsOpposite(dir,Precision::Confusion())`. -/
def findAllFacesCutBy (mkDirIsDone isOpposite : gp_Pnt → gp_Pnt → Bool) (cog : gp_Pnt) :
    List IntersectionPoint → List cutFaces → List cutFaces
  | [], result => result
  | hit :: rest, result =>
    let iPnt := hit.Pnt
    let dsq := cog.SquareDistance iPnt
    if dsq < Precision.Confusion then
      findAllFacesCutBy mkDirIsDone isOpposite cog rest result
    else if !mkDirIsDone cog iPnt then
      findAllFacesCutBy mkDirIsDone isOpposite cog rest result
    else if isOpposite cog iPnt then
      findAllFacesCutBy mkDirIsDone isOpposite cog rest result
    else
      findAllFacesCutBy mkDirIsDone isOpposite cog rest
        (result ++ [{ face := hit.Face, distsq := dsq }])

/-! ## FilletBase -/

/-- The least value of the 32 bit `int`. -/
def INT_MIN : Int := -2147483648

/-- The greatest value of the 32 bit `int`. -/
def INT_MAX : Int := 2147483647

/-- The record `Part::FilletElement`: an edge index (`int`) and two radii. -/
structure FilletElement where
  edgeid : Int
  radius1 : ℚ
  radius2 : ℚ
  deriving DecidableEq, Repr

/-- The properties of a `FilletBase` that the update hooks can be told about. -/
inductive FilletProperty where
  | Base | Edges | EdgeLinks | Other
  deriving DecidableEq, Repr

/-- The state of a `FilletBase` object: `Base.getValue()`, `Edges.getValues()`,
`EdgeLinks.getValue()`, `EdgeLinks.getSubValues()` and `getNameInDocument()`. -/
structure FilletBase where
  Base : Option ObjId
  Edges : List FilletElement
  EdgeLinksValue : Option ObjId
  EdgeLinksSubValues : List String
  nameInDocument : Option String
  deriving DecidableEq, Repr

/-- The loop `for(auto &info : Edges.getValues()) subs.emplace_back(sub+std::to_string(info.edgeid))`
of `FilletBase::syncEdgeLink`. -/
def edgeLinkSubs : List FilletElement → List String → List String
  | [], subs => subs
  | info :: rest, subs => edgeLinkSubs rest (subs ++ ["Edge" ++ toString info.edgeid])

/-- `FilletBase::syncEdgeLink()` -/
def syncEdgeLink (fb : FilletBase) : FilletBase :=
  if fb.Base.isNone || fb.Edges.length == 0 then
    { fb with EdgeLinksValue := none, EdgeLinksSubValues := [] }
  else
    { fb with EdgeLinksValue := fb.Base, EdgeLinksSubValues := edgeLinkSubs fb.Edges [] }

/-- `isspace` in the C locale. -/
def isspace (c : Char) : Bool :=
  c == ' ' || c == '\t' || c == '\n' || c == Char.ofNat 11 || c == Char.ofNat 12 || c == '\r'

/-- The characters that `c_str()` shows to `sscanf`: those before the first NUL. -/
def c_str (s : String) : List Char :=
  s.data.takeWhile (fun c => c != NUL)

/-- The number that a run of decimal digits denotes. -/
def decimalValue (ds : List Char) : Nat :=
  ds.foldl (fun acc c => 10 * acc + (c.toNat - 48)) 0

/-- What a `sscanf` with one `%d` does to its `int` argument: nothing, an
assignment, or (for a number that no `int` holds) undefined behaviour. -/
inductive ScanResult where
  | unassigned
  | assigned (v : Int)
  | overflow
  deriving DecidableEq, Repr

/-- The optional sign that `%d` accepts before the digits. -/
def scanSign (input : List Char) : Bool × List Char :=
  match input with
  | [] => (false, [])
  | c :: rest =>
    if c = '-' then (true, rest) else if c = '+' then (false, rest) else (false, c :: rest)

/-- The conversion `%d` of `sscanf` on the input that is left: white space is
skipped, then an optional sign and the longest run of decimal digits are
read; without a digit nothing is assigned. -/
def scanInt (input : List Char) : ScanResult :=
  let signed := scanSign (input.dropWhile isspace)
  let ds := signed.2.takeWhile Char.isDigit
  if ds.isEmpty then .unassigned
  else
    let v : Int := if signed.1 then -(decimalValue ds : Int) else (decimalValue ds : Int)
    if INT_MIN ≤ v ∧ v ≤ INT_MAX then .assigned v else .overflow

/-- The ordinary characters of a `sscanf` format: each must be the next
character of the input. -/
def matchLiteral : List Char → List Char → Option (List Char)
  | [], input => some input
  | _ :: _, [] => none
  | c :: cs, i :: input => if c = i then matchLiteral cs input else none

/-- `sscanf(s.c_str(),"Edge%d",&idx)` -/
def sscanfEdge (s : String) : ScanResult :=
  match matchLiteral ['E', 'd', 'g', 'e'] (c_str s) with
  | none => .unassigned
  | some rest => scanInt rest

/-- The value of `idx` after `int idx = 0; sscanf(s.c_str(),"Edge%d",&idx);`,
`none` where the behaviour is undefined. -/
def scannedIndex (s : String) : Option Int :=
  match sscanfEdge s with
  | .unassigned => some 0
  | .assigned v => some v
  | .overflow => none

/-- The loop of `FilletBase::onUpdateElementReference` over `values`, with
`todo` passes left and `i` the running index. -/
def updateEdgeIds (subs : List String) :
    Nat → Nat → List FilletElement → Option (List FilletElement)
  | 0, _, values => some values
  | todo + 1, i, values =>
    if subs.length ≤ i then some values
    else
      match scannedIndex (subs.getD i "") with
      | none => none
      | some idx =>
        if idx ≠ 0 then
          updateEdgeIds subs todo (i + 1) (values.modify (fun v => { v with edgeid := idx }) i)
        else
          updateEdgeIds subs todo (i + 1) values

/-- `FilletBase::onUpdateElementReference(prop)`. `Edges.setValues(values)` runs
under the status `User3`, so that `onChanged` does not call `syncEdgeLink`. -/
def onUpdateElementReference (fb : FilletBase) (prop : FilletProperty) : Option FilletBase :=
  if prop ≠ .EdgeLinks || fb.nameInDocument.isNone then some fb
  else
    match updateEdgeIds fb.EdgeLinksSubValues fb.Edges.length 0 fb.Edges with
    | none => none
    | some values => some { fb with Edges := values }

/-- The entry that the update leaves at index `j` when it found `v` there. -/
def updatedElement (subs : List String) (j : Nat) (v : FilletElement) : FilletElement :=
  match scannedIndex (subs.getD j "") with
  | some idx => if idx ≠ 0 then { v with edgeid := idx } else v
  | none => v

/-! ## Feature::getTopoShape -/

/-- The Python object that `getSubObject` hands out through `pyObj`, as far as
`PyObject_TypeCheck(pyobj,&TopoShapePy::Type)` and `isNull()` of the wrapped
shape can tell. -/
inductive PyObject where
  | topoShape (isNull : Bool)
  | other
  deriving DecidableEq, Repr

/-- The outcome of `obj->getSubObject(subname,&pyobj,&mat,transform)`: the
returned object and the Python object. -/
structure SubObject where
  owner : Option ObjId
  pyobj : Option PyObject
  deriving DecidableEq, Repr

/-- The object graph as `Feature::getTopoShape` consults it. The matrices are
left out: they are handed on and never tested; only whether a matrix is passed
to `getLinkedObject` is kept. -/
structure ObjectGraph where
  /-- `Data::ComplexGeoData::findElementName(subname)`, as the number of
  characters of `subname` before the element name -/
  findElementName : String → Nat
  /-- `obj->getSubObject(subname,&pyobj,&mat,transform)` -/
  getSubObject : ObjId → Option String → Bool → SubObject
  /-- `owner->getID()` -/
  getID : ObjId → Int
  /-- `owner->getLinkedObject(true,mat,false)`; the flag says whether `mat` is
  a matrix or null -/
  getLinkedObject : ObjId → Bool → Option ObjId
  /-- `owner->getSubObjects()` -/
  getSubObjects : ObjId → List String
  /-- `owner->isElementVisible(name)` -/
  isElementVisible : ObjId → String → Int
  /-- `subObj->Visibility.getValue()` -/
  Visibility : ObjId → Bool

/-- The return statement of `Feature::getTopoShape` that a shape comes from:
`TopoShape()`, the shape of the Python object, or the compound `ts`. -/
inductive ShapeOrigin where
  | empty
  | exposed
  | compound
  deriving DecidableEq, Repr

/-- What a call of `Feature::getTopoShape` yields: where the returned shape
comes from, whether it is null, the tag of the `reTagElementMap` call made on
it (if one was made), how many shapes went into the compound, the object
written through `powner`, and a ghost count of the `reTagElementMap` calls of
this call and of the calls it made. -/
structure ResolvedShape where
  origin : ShapeOrigin
  isNull : Bool
  reTagged : Option Int
  shapes : Nat
  powner : Option ObjId
  reTagCalls : Nat
  deriving DecidableEq, Repr

/-- The result of `return TopoShape();`. -/
def emptyShape (powner : Option ObjId) (reTagCalls : Nat) : ResolvedShape :=
  { origin := .empty, isNull := true, reTagged := none, shapes := 0, powner := powner
    reTagCalls := reTagCalls }

/-- `subelement && *subelement`: the sub-name has an element name. -/
def hasSubElement (g : ObjectGraph) (subname : Option String) : Bool :=
  match subname with
  | none => false
  | some s => decide (g.findElementName s < s.length)

/-- The sub-name passed to `getSubObject`: without its element name when no
sub-element is needed. -/
def nominalSubname (g : ObjectGraph) (subname : Option String) (needSubElement : Bool) :
    Option String :=
  match subname with
  | none => none
  | some s =>
    if !needSubElement && hasSubElement g subname then some (s.take (g.findElementName s))
    else some s

/-- `linked = owner->getLinkedObject(..); if(!linked) linked = owner;` -/
def linkedOf (g : ObjectGraph) (owner : ObjId) (withMat : Bool) : ObjId :=
  match g.getLinkedObject owner withMat with
  | some linked => linked
  | none => owner

/-- The test `!noElementMap && tag && owner!=linked`. -/
def reTagDue (g : ObjectGraph) (owner : ObjId) (withMat noElementMap : Bool) : Bool :=
  !noElementMap && g.getID owner != 0 && owner != linkedOf g owner withMat

/-- What `if(!noElementMap && tag && owner!=linked) shape.reTagElementMap(tag,hasher)`
does to the shape: a re-tag to `tag`, or nothing. -/
def reTagOf (g : ObjectGraph) (owner : ObjId) (withMat noElementMap : Bool) : Option Int :=
  if reTagDue g owner withMat noElementMap then some (g.getID owner) else none

/-- The number of `reTagElementMap` calls of that statement. -/
def reTagCount (g : ObjectGraph) (owner : ObjId) (withMat noElementMap : Bool) : Nat :=
  if reTagDue g owner withMat noElementMap then 1 else 0

/-- `*powner = resolveLink?linked:owner` -/
def reportedOwner (g : ObjectGraph) (owner : ObjId) (withMat resolveLink : Bool) : ObjId :=
  if resolveLink then linkedOf g owner withMat else owner

/-- The number of shapes pushed and the ghost count of re-tag calls while the
sub-objects are gone through. -/
structure Gathered where
  shapes : Nat
  reTagCalls : Nat
  deriving DecidableEq, Repr

/-- The loop `for(auto name : owner->getSubObjects())` of
`Feature::getTopoShape`; `recurse name` is the call
`getTopoShape(owner,name.c_str(),false,0,&subObj,false,false,noElementMap)`. -/
def gatherShapes (g : ObjectGraph) (recurse : String → Except Fault ResolvedShape)
    (owner : ObjId) : List String → Gathered → Except Fault Gathered
  | [], acc => .ok acc
  | name :: rest, acc =>
    if name.isEmpty then gatherShapes g recurse owner rest acc
    else
      let visible :=
        if name.back = '.' then g.isElementVisible owner (name.dropRight 1)
        else g.isElementVisible owner name
      if visible = 0 then gatherShapes g recurse owner rest acc
      else
        match recurse (if name.back ≠ '.' then name.push '.' else name) with
        | .error e => .error e
        | .ok shape =>
          let hidden :=
            match shape.powner with
            | some subObj => !g.Visibility subObj
            | none => false
          if visible < 0 ∧ hidden = true then
            gatherShapes g recurse owner rest
              { acc with reTagCalls := acc.reTagCalls + shape.reTagCalls }
          else if !shape.isNull then
            gatherShapes g recurse owner rest
              { shapes := acc.shapes + 1, reTagCalls := acc.reTagCalls + shape.reTagCalls }
          else
            gatherShapes g recurse owner rest
              { acc with reTagCalls := acc.reTagCalls + shape.reTagCalls }

/-- `Feature::getTopoShape(obj,subname,needSubElement,pmat,powner,resolveLink,
transform,noElementMap)`; `hasPmat` says whether `pmat` is a matrix or null,
and the fuel bounds the depth of the calls for sub-objects. A compound of at
least one shape that is not null is not null. -/
def getTopoShape (g : ObjectGraph) :
    Nat → Option ObjId → Option String → Bool → Bool → Bool → Bool → Bool →
      Except Fault ResolvedShape
  | 0, _, _, _, _, _, _, _ => .error .outOfFuel
  | fuel + 1, obj, subname, needSubElement, hasPmat, resolveLink, transform, noElementMap =>
    match obj with
    | none => .ok (emptyShape none 0)
    | some o =>
      let sub := g.getSubObject o (nominalSubname g subname needSubElement) transform
      match sub.owner with
      | none =>
        match sub.pyobj with
        | some (.topoShape isNull) =>
          .ok { origin := .exposed, isNull := isNull, reTagged := none, shapes := 0
                powner := none, reTagCalls := 0 }
        | _ => .ok (emptyShape none 0)
      | some owner =>
        let powner := reportedOwner g owner (hasPmat && resolveLink) resolveLink
        match sub.pyobj with
        | some (.topoShape isNull) =>
          .ok { origin := .exposed, isNull := isNull
                reTagged := reTagOf g owner (hasPmat && resolveLink) noElementMap, shapes := 0
                powner := some powner
                reTagCalls := reTagCount g owner (hasPmat && resolveLink) noElementMap }
        | _ =>
          if needSubElement && hasSubElement g subname then .ok (emptyShape (some powner) 0)
          else
            match gatherShapes g
                (fun name => getTopoShape g fuel (some owner) (some name) false false false false
                  noElementMap)
                owner (g.getSubObjects owner) { shapes := 0, reTagCalls := 0 } with
            | .error e => .error e
            | .ok gathered =>
              if gathered.shapes = 0 then .ok (emptyShape (some powner) gathered.reTagCalls)
              else
                .ok { origin := .compound, isNull := false
                      reTagged := reTagOf g owner (hasPmat && resolveLink) noElementMap
                      shapes := gathered.shapes
                      powner := some powner
                      reTagCalls := gathered.reTagCalls
                        + reTagCount g owner (hasPmat && resolveLink) noElementMap }

/-- A shape without any history: every lookup answers tag 0. -/
def plainShape : TopoShape :=
  { isNull := false
    getElementName := fun n => n
    elementType := fun _ => 'F'
    getElementHistory := fun n => { tag := 0, original := n, intermediates := [] }
    getRelatedElements := fun _ _ => []
    countSubShapes := fun _ => 0 }

/-- A document in which every object has the shape `plainShape`. -/
def plainDoc : Document :=
  { getTopoShape := fun o => (plainShape, o)
    linkedObjectByID := fun _ _ => none
    getObjectByID := fun _ _ => none
    itemTag := fun _ => 0
    shapeType := fun _ => .FACE
    shapeName := fun _ => "Face" }

/-- Mapped names of the faces of object 3: `Face1..Face4` are `A`, `B`, `C`,
`D`; `Face5` is untracked. -/
def mappedName3 (n : String) : String :=
  if n = "Face1" then "A" else if n = "Face2" then "B" else if n = "Face3" then "C"
  else if n = "Face4" then "D" else n

/-- Shape of object 3: faces `Face1..Face5`; the mapped names come from object
2, `B` through an intermediate edge `e` and `D` through an intermediate face
`f`. The history lookup takes a canonical name like its mapped name. -/
def shape3 : TopoShape :=
  { isNull := false
    getElementName := mappedName3
    elementType := fun n => if n = "e" then 'E' else 'F'
    getElementHistory := fun n =>
      if mappedName3 n = "A" then { tag := 2, original := "X", intermediates := [] }
      else if mappedName3 n = "B" then { tag := 2, original := "X", intermediates := ["e"] }
      else if mappedName3 n = "C" then { tag := 2, original := "Y", intermediates := [] }
      else if mappedName3 n = "D" then { tag := 2, original := "X", intermediates := ["f"] }
      else { tag := 0, original := n, intermediates := [] }
    getRelatedElements := fun _ _ => []
    countSubShapes := fun t => if t = .FACE then 5 else 0 }

/-- Shape of object 2: `X` and `Y` come from `R` of object 1, `Y` through an
intermediate edge `e`. -/
def shape2 : TopoShape :=
  { isNull := false
    getElementName := fun n => n
    elementType := fun n => if n = "e" then 'E' else 'F'
    getElementHistory := fun n =>
      if n = "X" then { tag := 1, original := "R", intermediates := [] }
      else if n = "Y" then { tag := 1, original := "R", intermediates := ["e"] }
      else { tag := 0, original := n, intermediates := [] }
    getRelatedElements := fun _ _ => []
    countSubShapes := fun _ => 0 }

/-- A document of three objects in a chain 3, 2, 1 (downstream first). -/
def chainDoc : Document :=
  { getTopoShape := fun o =>
      match o with
      | some 3 => (shape3, some 3)
      | some 2 => (shape2, some 2)
      | other => (plainShape, other)
    linkedObjectByID := fun _ t => if t = 1 then some 1 else if t = 2 then some 2 else none
    getObjectByID := fun _ t => if t = 1 then some 1 else if t = 2 then some 2 else none
    itemTag := fun o =>
      match o with
      | some n => n
      | none => 0
    shapeType := fun c =>
      if c = 'F' then .FACE else if c = 'E' then .EDGE else if c = 'V' then .VERTEX else .SHAPE
    shapeName := fun t =>
      match t with
      | .FACE => "Face"
      | .EDGE => "Edge"
      | .VERTEX => "Vertex"
      | _ => "Shape" }

/-- A kernel for a solid (shape 1) and a face far away from it (shape 2): the
bounding boxes are disjoint, the fuse (shape 3) is a compound of the solid and
the face, the common (shape 4) is an empty compound. -/
def apartKernel : Kernel :=
  { IsOut := fun _ _ => true
    Fuse := fun _ _ => { IsDone := true, Shape := 3 }
    Common := fun _ _ => { IsDone := true, Shape := 4 }
    IsNull := fun _ => false
    solids := fun sh => if sh = 3 then [1] else if sh = 1 then [1] else [] }

/-- A kernel for two overlapping solids (shapes 1 and 2): the fuse (shape 3) is
one solid, the common (shape 4) is one solid. -/
def overlapKernel : Kernel :=
  { IsOut := fun _ _ => false
    Fuse := fun _ _ => { IsDone := true, Shape := 3 }
    Common := fun _ _ => { IsDone := true, Shape := 4 }
    IsNull := fun _ => false
    solids := fun sh => if sh = 0 then [] else [sh] }

/-- The origin. -/
def origin : gp_Pnt := { x := 0, y := 0, z := 0 }

/-- The point on the z axis at height `1e-5`. -/
def nearPoint : gp_Pnt := { x := 0, y := 0, z := 1 / 100000 }

/-- A fillet of three edges whose links are in disorder: the second
sub-value is a mapped name, the third has characters after the number. -/
def brokenFillet : FilletBase :=
  { Base := some 1
    Edges := [{ edgeid := 1, radius1 := 1, radius2 := 2 },
              { edgeid := 2, radius1 := 3, radius2 := 4 },
              { edgeid := 3, radius1 := 5, radius2 := 6 }]
    EdgeLinksValue := some 1
    EdgeLinksSubValues := ["Edge7", "?Edge2", "Edge-9;x"]
    nameInDocument := some "Fillet" }

/-- A fillet whose edge indices are positive, zero and negative. -/
def signedFillet : FilletBase :=
  { Base := some 1
    Edges := [{ edgeid := 12, radius1 := 1, radius2 := 2 },
              { edgeid := 0, radius1 := 3, radius2 := 4 },
              { edgeid := -5, radius1 := 5, radius2 := 6 }]
    EdgeLinksValue := none
    EdgeLinksSubValues := []
    nameInDocument := some "Fillet" }

section Loops

variable {σ ρ : Type} (body : σ → Except Fault (σ ⊕ ρ))

theorem iterate_succ_of_inr {s : σ} {r : ρ} (n : Nat) (h : body s = .ok (.inr r)) :
    iterate body (n + 1) s = .ok r := by
  simp [iterate, h]

theorem iterate_succ_of_inl {s m : σ} (n : Nat) (h : body s = .ok (.inl m)) :
    iterate body (n + 1) s = iterate body n m := by
  simp [iterate, h]

theorem iterate_of_stepsTo (k n : Nat) {s t : σ} (h : stepsTo body k s t) :
    iterate body (k + n) s = iterate body n t := by
  induction k generalizing s with
  | zero => simp only [stepsTo] at h; subst h; simp
  | succ k ih =>
    obtain ⟨m, hm, hrest⟩ := h
    rw [show k + 1 + n = (k + n) + 1 by omega, iterate_succ_of_inl body _ hm]
    exact ih hrest

theorem iterate_ok_iff (n : Nat) (s : σ) (r : ρ) :
    iterate body n s = .ok r ↔
      ∃ k, k < n ∧ ∃ t, stepsTo body k s t ∧ body t = .ok (.inr r) := by
  induction n generalizing s with
  | zero => simp [iterate]
  | succ n ih =>
    constructor
    · intro h
      rw [iterate] at h
      split at h
      · cases h
      · rename_i next hb
        obtain ⟨k, hk, t, hst, hbt⟩ := (ih next).1 h
        exact ⟨k + 1, by omega, t, ⟨next, hb, hst⟩, hbt⟩
      · rename_i r0 hb
        cases h
        exact ⟨0, by omega, s, rfl, hb⟩
    · rintro ⟨k, hk, t, hst, hbt⟩
      cases k with
      | zero =>
        simp only [stepsTo] at hst
        subst hst
        exact iterate_succ_of_inr body n hbt
      | succ k =>
        obtain ⟨m, hm, hrest⟩ := hst
        rw [iterate_succ_of_inl body n hm]
        exact (ih m).2 ⟨k, by omega, t, hrest, hbt⟩

theorem iterate_mono {n m : Nat} {s : σ} {r : ρ} (h : iterate body n s = .ok r) (hnm : n ≤ m) :
    iterate body m s = .ok r := by
  obtain ⟨k, hk, t, hst, hbt⟩ := (iterate_ok_iff body n s r).1 h
  exact (iterate_ok_iff body m s r).2 ⟨k, by omega, t, hst, hbt⟩

end Loops

/-- C1 (as amended): when the single-hop lookup of the queried element answers
tag 0, the recursive query returns exactly one item, owned by the queried
feature itself, and the non-recursive query returns that item followed by one
item with null owner and tag 0. -/
theorem getElementHistory_no_history (doc : Document) (fuel : Nat) (feature : Option ObjId)
    (name : String) (sameType : Bool)
    (h0 : ((doc.getTopoShape feature).1.getElementHistory
      ((doc.getTopoShape feature).1.getElementName name)).tag = 0) :
    getElementHistory doc (fuel + 1) feature name true sameType
        = .ok [{ obj := feature, tag := doc.itemTag feature
                 element := (doc.getTopoShape feature).1.getElementName name
                 intermediates := ((doc.getTopoShape feature).1.getElementHistory
                   ((doc.getTopoShape feature).1.getElementName name)).intermediates }]
      ∧ getElementHistory doc (fuel + 1) feature name false sameType
        = .ok [{ obj := feature, tag := doc.itemTag feature
                 element := (doc.getTopoShape feature).1.getElementName name
                 intermediates := ((doc.getTopoShape feature).1.getElementHistory
                   ((doc.getTopoShape feature).1.getElementName name)).intermediates },
               { obj := none, tag := 0
                 element := ((doc.getTopoShape feature).1.getElementHistory
                   ((doc.getTopoShape feature).1.getElementName name)).original
                 intermediates := [] }] := by
  constructor
  · apply iterate_succ_of_inr
    simp [getElementHistoryBody, historyInit, h0, lookupProducer, HistoryState.item,
      HistoryItem.create]
  · apply iterate_succ_of_inr
    simp [getElementHistoryBody, historyInit, h0, lookupProducer, HistoryState.item,
      HistoryItem.create]

/-- Witness of `getElementHistory_no_history` on a document without history. -/
theorem getElementHistory_no_history_witness :
    getElementHistory plainDoc 1 (some 7) "Face1" true false
        = .ok [{ obj := some 7, tag := 0, element := "Face1", intermediates := [] }]
      ∧ getElementHistory plainDoc 1 (some 7) "Face1" false false
        = .ok [{ obj := some 7, tag := 0, element := "Face1", intermediates := [] },
            { obj := none, tag := 0, element := "Face1", intermediates := [] }] :=
  getElementHistory_no_history plainDoc 0 (some 7) "Face1" false (by decide)

/-- C1 (counterexample): on a shape without history the recursive query returns
one item whose owner is the feature, not null, and the non-recursive query
returns two items, not one. -/
theorem getElementHistory_no_history_counterexample :
    (plainShape.getElementHistory (plainShape.getElementName "Face1")).tag = 0
      ∧ (¬ ∃ item, getElementHistory plainDoc 1 (some 7) "Face1" true false = .ok [item]
            ∧ item.obj = none ∧ item.tag = 0)
      ∧ (¬ ∃ item, getElementHistory plainDoc 1 (some 7) "Face1" false false = .ok [item]
            ∧ item.obj = none ∧ item.tag = 0) := by
  have h1 : getElementHistory plainDoc 1 (some 7) "Face1" true false
      = .ok [{ obj := some 7, tag := 0, element := "Face1", intermediates := [] }] := by decide
  have h2 : getElementHistory plainDoc 1 (some 7) "Face1" false false
      = .ok [{ obj := some 7, tag := 0, element := "Face1", intermediates := [] },
          { obj := none, tag := 0, element := "Face1", intermediates := [] }] := by decide
  refine ⟨by decide, ?_, ?_⟩
  · rintro ⟨item, h, hobj, _⟩
    rw [h1] at h
    simp only [Except.ok.injEq, List.cons.injEq, and_true] at h
    subst h
    simp at hobj
  · rintro ⟨item, h, _⟩
    rw [h2] at h
    simp at h

/-! ### Feature::getElementHistory: termination and chain length -/

/-- What one recursive pass from a non-null feature does: it leaves the loop
with the chain so far, or it moves on to an upstream producer. -/
theorem historyBody_recursive_cases (doc : Document) (element_type : Char) (f : ObjId)
    (shape : TopoShape) (mapped : String) (ret : List HistoryItem) :
    let s : HistoryState := { feature := some f, shape := shape, mapped := mapped, ret := ret }
    getElementHistoryBody doc true element_type s = .ok (.inr (ret ++ [s.item doc]))
      ∨ ∃ o, (shape.getElementHistory mapped).tag ≠ 0
          ∧ doc.linkedObjectByID f (shape.getElementHistory mapped).tag = some o
          ∧ getElementHistoryBody doc true element_type s
            = .ok (.inl { feature := some o, shape := (doc.getTopoShape (some o)).1
                          mapped := (shape.getElementHistory mapped).original
                          ret := ret ++ [s.item doc] }) := by
  intro s
  by_cases h0 : (shape.getElementHistory mapped).tag = 0
  · left
    simp [getElementHistoryBody, lookupProducer, s, h0]
  · cases hobj : doc.linkedObjectByID f (shape.getElementHistory mapped).tag with
    | none =>
      left
      simp [getElementHistoryBody, lookupProducer, s, h0, hobj]
    | some o =>
      by_cases c1 : element_type ≠ NUL ∧ (shape.getElementHistory mapped).intermediates.any
          (fun hist => shape.elementType hist != element_type) = true
      · left
        simp only [getElementHistoryBody, lookupProducer, s, h0, hobj]
        simp [c1]
      · by_cases c2 : element_type ≠ NUL ∧ (doc.getTopoShape (some o)).1.elementType
            (shape.getElementHistory mapped).original ≠ element_type
        · left
          simp only [getElementHistoryBody, lookupProducer, s, h0, hobj]
          simp [c1, c2]
        · right
          refine ⟨o, h0, rfl, ?_⟩
          simp only [getElementHistoryBody, lookupProducer, s, h0, hobj]
          simp only [if_neg c1, reduceIte, Bool.not_true, Bool.false_eq_true]
          rw [if_neg c2]

/-- The recursive loop, entered at a feature that the walk has not visited
before, returns within `objs.card - visited.card` passes, one item per pass. -/
theorem historyLoop_bounded (doc : Document) (element_type : Char) (objs : Finset ObjId)
    (hclosed : ∀ f ∈ objs, ∀ g, Upstream doc f g → g ∈ objs)
    (hacyclic : ∀ f ∈ objs, ¬ Relation.TransGen (Upstream doc) f f) :
    ∀ (fuel : Nat) (visited : Finset ObjId) (f : ObjId) (mapped : String)
      (ret : List HistoryItem),
      visited ⊆ objs → f ∈ objs → f ∉ visited →
      (∀ v ∈ visited, Relation.TransGen (Upstream doc) v f) →
      objs.card ≤ fuel + visited.card →
      ∃ chain, iterate (getElementHistoryBody doc true element_type) fuel
            { feature := some f, shape := (doc.getTopoShape (some f)).1
              mapped := mapped, ret := ret } = .ok chain
        ∧ chain.length + visited.card ≤ ret.length + objs.card := by
  intro fuel
  induction fuel with
  | zero =>
    intro visited f mapped ret hsub hf hnot _ hcard
    have hlt : visited.card < objs.card :=
      Finset.card_lt_card ⟨hsub, fun h => hnot (h hf)⟩
    omega
  | succ fuel ih =>
    intro visited f mapped ret hsub hf hnot hreach hcard
    have hlt : visited.card < objs.card :=
      Finset.card_lt_card ⟨hsub, fun h => hnot (h hf)⟩
    rcases historyBody_recursive_cases doc element_type f (doc.getTopoShape (some f)).1
      mapped ret with hstop | ⟨o, htag, hobj, hnext⟩
    · refine ⟨_, iterate_succ_of_inr _ fuel hstop, ?_⟩
      simp only [List.length_append, List.length_singleton]
      omega
    · have hup : Upstream doc f o := ⟨mapped, htag, hobj⟩
      have ho : o ∈ objs := hclosed f hf o hup
      have hof : o ≠ f := by
        intro h
        subst h
        exact hacyclic o ho (Relation.TransGen.single hup)
      have hov : o ∉ visited := by
        intro h
        exact hacyclic o ho (Relation.TransGen.tail (hreach o h) hup)
      have hnot2 : o ∉ insert f visited := by
        simp only [Finset.mem_insert, not_or]
        exact ⟨hof, hov⟩
      have hsub2 : insert f visited ⊆ objs := Finset.insert_subset hf hsub
      have hreach2 : ∀ v ∈ insert f visited, Relation.TransGen (Upstream doc) v o := by
        intro v hv
        rcases Finset.mem_insert.1 hv with h | h
        · subst h
          exact Relation.TransGen.single hup
        · exact Relation.TransGen.tail (hreach v h) hup
      have hc : (insert f visited).card = visited.card + 1 := Finset.card_insert_of_not_mem hnot
      obtain ⟨chain, hrun, hlen⟩ := ih (insert f visited) o
        ((doc.getTopoShape (some f)).1.getElementHistory mapped).original
        (ret ++ [HistoryState.item doc
          { feature := some f, shape := (doc.getTopoShape (some f)).1, mapped := mapped,
            ret := ret }])
        hsub2 ho hnot2 hreach2 (by omega)
      refine ⟨chain, ?_, ?_⟩
      · rw [iterate_succ_of_inl _ fuel hnext]
        exact hrun
      · simp only [List.length_append, List.length_singleton] at hlen
        omega

/-- C2: when the feature belongs to a finite set `objs` of objects that is
closed under the upstream producer relation, and that relation has no cycle
through an object of `objs`, the recursive history query returns a chain (with
any fuel of at least `objs.card`), and the chain has at most `objs.card`
items. -/
theorem getElementHistory_recursive_terminates (doc : Document) (objs : Finset ObjId)
    (feature : ObjId) (name : String) (sameType : Bool) (fuel : Nat)
    (hmem : feature ∈ objs)
    (hclosed : ∀ f ∈ objs, ∀ g, Upstream doc f g → g ∈ objs)
    (hacyclic : ∀ f ∈ objs, ¬ Relation.TransGen (Upstream doc) f f)
    (hfuel : objs.card ≤ fuel) :
    ∃ chain, getElementHistory doc fuel (some feature) name true sameType = .ok chain
      ∧ chain.length ≤ objs.card := by
  obtain ⟨chain, hrun, hlen⟩ := historyLoop_bounded doc
    (if sameType then (doc.getTopoShape (some feature)).1.elementType name else NUL)
    objs hclosed hacyclic fuel ∅ feature
    ((doc.getTopoShape (some feature)).1.getElementName name) [] (Finset.empty_subset _) hmem
    (Finset.not_mem_empty _) (fun v hv => absurd hv (Finset.not_mem_empty _)) (by simpa using hfuel)
  refine ⟨chain, hrun, ?_⟩
  simpa using hlen

/-- A relation that strictly lowers a rank has no cycle. -/
theorem acyclic_of_rank {α : Type} (r : α → α → Prop) (rank : α → Nat)
    (hrank : ∀ a b, r a b → rank b < rank a) (a : α) : ¬ Relation.TransGen r a a := by
  have key : ∀ x y, Relation.TransGen r x y → rank y < rank x := by
    intro x y h
    induction h with
    | single h => exact hrank _ _ h
    | tail _ h ih => exact lt_trans (hrank _ _ h) ih
  intro h
  exact lt_irrefl _ (key a a h)

/-- In `chainDoc` every upstream producer has a smaller identity, and is one of
the objects 1 and 2. -/
theorem chainDoc_upstream (f g : ObjId) (h : Upstream chainDoc f g) :
    g < f ∧ (g = 1 ∨ g = 2) := by
  obtain ⟨name, htag, hobj⟩ := h
  by_cases h3 : f = 3
  · subst h3
    simp only [chainDoc, shape3] at htag hobj
    split_ifs at htag hobj <;> simp_all <;> (subst hobj; decide)
  · by_cases h2 : f = 2
    · subst h2
      simp only [chainDoc, shape2] at htag hobj
      split_ifs at htag hobj <;> simp_all <;> (subst hobj; decide)
    · exfalso
      apply htag
      have : chainDoc.getTopoShape (some f) = (plainShape, some f) := by
        simp only [chainDoc]
        split
        · simp_all
        · simp_all
        · rfl
      rw [this]
      rfl

/-- Witness of `getElementHistory_recursive_terminates`: the chain of `Face1` of
object 3 in `chainDoc` has its three objects. -/
theorem getElementHistory_recursive_terminates_witness :
    ∃ chain, getElementHistory chainDoc 3 (some 3) "Face1" true true = .ok chain
      ∧ chain.length ≤ ({1, 2, 3} : Finset ObjId).card :=
  getElementHistory_recursive_terminates chainDoc {1, 2, 3} 3 "Face1" true 3 (by decide)
    (fun f _ g h => by
      rcases (chainDoc_upstream f g h).2 with h1 | h2
      · subst h1; decide
      · subst h2; decide)
    (fun f _ => acyclic_of_rank (Upstream chainDoc) id
      (fun a b h => (chainDoc_upstream a b h).1) f)
    (by decide)

/-! ### Feature::getElementHistory: the type check -/

/-- A pass that moves on does so to a non-null feature. -/
theorem historyBody_next_feature (doc : Document) (element_type : Char) (s m : HistoryState)
    (h : getElementHistoryBody doc true element_type s = .ok (.inl m)) :
    m.feature ≠ none := by
  simp only [getElementHistoryBody] at h
  split at h
  · cases h
  · rename_i obj _
    simp only [Bool.not_true, Bool.false_eq_true, reduceIte] at h
    cases obj with
    | none => cases h
    | some o =>
      simp only at h
      split_ifs at h
      · cases h
      · cases h
      · simp only [Except.ok.injEq, Sum.inl.injEq] at h
        subst h
        simp

/-- Every state that the recursive walk reaches from a non-null feature has a
non-null feature. -/
theorem historySteps_feature (doc : Document) (element_type : Char) (k : Nat)
    (s t : HistoryState) (hs : s.feature ≠ none)
    (h : stepsTo (getElementHistoryBody doc true element_type) k s t) : t.feature ≠ none := by
  induction k generalizing s with
  | zero =>
    simp only [stepsTo] at h
    subst h
    exact hs
  | succ k ih =>
    obtain ⟨m, hm, hrest⟩ := h
    exact ih m (historyBody_next_feature doc element_type s m hm) hrest

/-- A recursive pass with a recognised element type in which an intermediate
name has another type leaves the loop with the chain so far. -/
theorem historyBody_typeDiverges (doc : Document) (element_type : Char) (s : HistoryState)
    (htype : element_type ≠ NUL) (hfeat : s.feature ≠ none)
    (hdiv : s.typeDiverges element_type) :
    getElementHistoryBody doc true element_type s = .ok (.inr (s.ret ++ [s.item doc])) := by
  obtain ⟨hist, hmem, hne⟩ := hdiv
  have hany : (s.shape.getElementHistory s.mapped).intermediates.any
      (fun hist => s.shape.elementType hist != element_type) = true := by
    rw [List.any_eq_true]
    exact ⟨hist, hmem, by simpa using hne⟩
  obtain ⟨f, hf⟩ := Option.ne_none_iff_exists.1 hfeat
  by_cases h0 : (s.shape.getElementHistory s.mapped).tag = 0
  · simp [getElementHistoryBody, lookupProducer, h0]
  · cases hobj : doc.linkedObjectByID f (s.shape.getElementHistory s.mapped).tag with
    | none => simp [getElementHistoryBody, lookupProducer, h0, ← hf, hobj]
    | some o =>
      simp only [getElementHistoryBody, lookupProducer, h0, ← hf, hobj]
      simp [htype, hany]

/-- C3 (as amended): in a recursive query with `sameType` for a name whose type
is recognised, if after `k` completed passes an intermediate name of the
current pass has a type other than that of the queried name, the query returns
the chain accumulated so far: the items of the earlier passes and the item of
the current one, and no item for its pre-image. -/
theorem getElementHistory_type_divergence_stops (doc : Document) (feature : ObjId)
    (name : String) (k fuel : Nat) (s : HistoryState)
    (htype : (doc.getTopoShape (some feature)).1.elementType name ≠ NUL)
    (hsteps : stepsTo
      (getElementHistoryBody doc true ((doc.getTopoShape (some feature)).1.elementType name))
      k (historyInit doc (some feature) name) s)
    (hdiv : s.typeDiverges ((doc.getTopoShape (some feature)).1.elementType name))
    (hfuel : k < fuel) :
    getElementHistory doc fuel (some feature) name true true
      = .ok (s.ret ++ [s.item doc]) := by
  have hfeat : s.feature ≠ none :=
    historySteps_feature doc _ k (historyInit doc (some feature) name) s (by simp [historyInit])
      hsteps
  obtain ⟨n, rfl⟩ : ∃ n, fuel = k + (n + 1) := ⟨fuel - k - 1, by omega⟩
  simp only [getElementHistory, reduceIte]
  rw [iterate_of_stepsTo _ k (n + 1) hsteps]
  exact iterate_succ_of_inr _ n (historyBody_typeDiverges doc _ s htype hfeat hdiv)

/-- Witness of `getElementHistory_type_divergence_stops`: the walk from `Face3`
of object 3 stops in its second pass, at object 2. -/
theorem getElementHistory_type_divergence_stops_witness :
    getElementHistory chainDoc 2 (some 3) "Face3" true true
      = .ok [{ obj := some 3, tag := 3, element := "C", intermediates := [] },
          { obj := some 2, tag := 2, element := "Y", intermediates := ["e"] }] :=
  getElementHistory_type_divergence_stops chainDoc 3 "Face3" 1 2
    { feature := some 2, shape := shape2, mapped := "Y"
      ret := [{ obj := some 3, tag := 3, element := "C", intermediates := [] }] }
    (by decide) ⟨_, rfl, rfl⟩ ⟨"e", by decide, by decide⟩ (by decide)

/-- C3 (counterexample): with `recursive=false` and `sameType=true` the
intermediate name `e` of `Face2` is an edge while `Face2` is a face, and yet
the item of the pre-image `X` in object 2 is appended. -/
theorem getElementHistory_type_divergence_counterexample :
    HistoryState.typeDiverges (shape3.elementType "Face2") (historyInit chainDoc (some 3) "Face2")
      ∧ getElementHistory chainDoc 1 (some 3) "Face2" false true
        = .ok [{ obj := some 3, tag := 3, element := "B", intermediates := ["e"] },
            { obj := some 2, tag := 2, element := "X", intermediates := [] }]
      ∧ getElementHistory chainDoc 1 (some 3) "Face2" false true
        ≠ .ok ((historyInit chainDoc (some 3) "Face2").ret
            ++ [(historyInit chainDoc (some 3) "Face2").item chainDoc]) := by
  refine ⟨⟨"e", by decide, by decide⟩, by decide, by decide⟩

/-! ### getElementSource -/

/-- Every way out of the loop of `getElementSource` returns the current pair. -/
theorem sourceBody_inr (doc : Document) (type : Char) (s : SourceState) (r : Int × String)
    (h : getElementSourceBody doc type s = .ok (.inr r)) : r = (s.tag, s.name) := by
  unfold getElementSourceBody at h
  by_cases h0 : (s.shape.getElementHistory s.name).tag = 0
  · simp only [h0, reduceIte, Except.ok.injEq, Sum.inr.injEq] at h
    exact h.symm
  · cases ho : s.owner with
    | none => simp [h0, ho] at h
    | some o =>
      cases hobj : doc.getObjectByID o (s.shape.getElementHistory s.name).tag with
      | none =>
        simp only [h0, ho, hobj, reduceIte, Except.ok.injEq, Sum.inr.injEq] at h
        exact h.symm
      | some obj =>
        simp only [h0, ho, hobj, reduceIte] at h
        split_ifs at h
        all_goals first
          | (simp only [Except.ok.injEq, Sum.inr.injEq] at h; exact h.symm)
          | cases h

/-- A completed hop: the lookup gave a non-zero tag that resolves, through the
current owner, to an object whose shape and owner become current; the pre-image
name and the tag become current, and with a type requested the pre-image has
that type in the new shape. -/
theorem sourceBody_inl (doc : Document) (type : Char) (s m : SourceState)
    (h : getElementSourceBody doc type s = .ok (.inl m)) :
    m.tag ≠ 0 ∧ m.tag = (s.shape.getElementHistory s.name).tag
      ∧ m.name = (s.shape.getElementHistory s.name).original
      ∧ (∃ o obj, s.owner = some o ∧ doc.getObjectByID o m.tag = some obj
          ∧ doc.getTopoShape (some obj) = (m.shape, m.owner))
      ∧ (type ≠ NUL → m.shape.elementType m.name = type) := by
  unfold getElementSourceBody at h
  by_cases h0 : (s.shape.getElementHistory s.name).tag = 0
  · simp [h0] at h
  · cases ho : s.owner with
    | none => simp [h0, ho] at h
    | some o =>
      cases hobj : doc.getObjectByID o (s.shape.getElementHistory s.name).tag with
      | none => simp [h0, ho, hobj] at h
      | some obj =>
        simp only [h0, ho, hobj, reduceIte] at h
        split_ifs at h with c1 c2 c3
        all_goals cases h
        refine ⟨h0, rfl, rfl, ⟨o, obj, rfl, hobj, rfl⟩, ?_⟩
        intro ht
        by_contra hne
        exact c3 ⟨ht, hne⟩

/-- At a root the loop is left. -/
theorem sourceBody_atRoot (doc : Document) (type : Char) (s : SourceState) (h : s.atRoot) :
    getElementSourceBody doc type s = .ok (.inr (s.tag, s.name)) := by
  simp only [SourceState.atRoot] at h
  simp [getElementSourceBody, h]

/-- At a hop with an intermediate name of another type the loop is left. -/
theorem sourceBody_typeDiverges (doc : Document) (type : Char) (s : SourceState)
    (htype : type ≠ NUL) (h : s.typeDiverges doc type) :
    getElementSourceBody doc type s = .ok (.inr (s.tag, s.name)) := by
  obtain ⟨h0, ⟨o, obj, ho, hobj⟩, hist, hmem, hne⟩ := h
  have hany : (s.shape.getElementHistory s.name).intermediates.any
      (fun hist => s.shape.elementType hist != type) = true := by
    rw [List.any_eq_true]
    exact ⟨hist, hmem, by simpa using hne⟩
  simp only [getElementSourceBody, h0, ho, hobj]
  simp [htype, hany]

/-- After at least one completed hop the current tag is non-zero, the current
name has the requested type in the current shape, and the current shape and
owner are those resolved for the object of the current tag. -/
theorem sourceSteps_invariant (doc : Document) (type : Char) (k : Nat) (s t : SourceState)
    (h : stepsTo (getElementSourceBody doc type) (k + 1) s t) :
    t.tag ≠ 0 ∧ (type ≠ NUL → t.shape.elementType t.name = type)
      ∧ ∃ prev obj, doc.getObjectByID prev t.tag = some obj
          ∧ doc.getTopoShape (some obj) = (t.shape, t.owner) := by
  induction k generalizing s with
  | zero =>
    obtain ⟨m, hm, hrest⟩ := h
    simp only [stepsTo] at hrest
    subst hrest
    obtain ⟨h0, _, _, ⟨o, obj, _, hobj, hshape⟩, hty⟩ := sourceBody_inl doc type s m hm
    exact ⟨h0, hty, o, obj, hobj, hshape⟩
  | succ k ih =>
    obtain ⟨m, _, hrest⟩ := h
    exact ih m hrest

/-- With a non-zero type the loop body moves on exactly by a completed hop of
the specification, and to the state of that hop. -/
theorem sourceBody_inl_iff (doc : Document) (type : Char) (s m : SourceState)
    (htype : type ≠ NUL) :
    getElementSourceBody doc type s = .ok (.inl m) ↔ s.hopCompletes doc type m := by
  unfold getElementSourceBody SourceState.hopCompletes
  by_cases h0 : (s.shape.getElementHistory s.name).tag = 0
  · simp [h0]
  · cases ho : s.owner with
    | none => simp [h0]
    | some o =>
      cases hobj : doc.getObjectByID o (s.shape.getElementHistory s.name).tag with
      | none => simp [h0, hobj]
      | some obj =>
        simp only [h0, reduceIte, ne_eq, not_false_eq_true, true_and, Option.some.injEq,
          exists_and_left, exists_eq_left', hobj]
        by_cases c1 : (s.shape.getElementHistory s.name).intermediates.any
            (fun hist => s.shape.elementType hist != type) = true
        · have hc : type ≠ NUL ∧ (s.shape.getElementHistory s.name).intermediates.any
              (fun hist => s.shape.elementType hist != type) = true := ⟨htype, c1⟩
          rw [if_pos hc]
          constructor
          · intro h
            cases h
          · rintro ⟨hall, _⟩
            rw [List.any_eq_true] at c1
            obtain ⟨hist, hmem, hne⟩ := c1
            exact absurd (hall hist hmem) (by simpa using hne)
        · have hc : ¬ (type ≠ NUL ∧ (s.shape.getElementHistory s.name).intermediates.any
              (fun hist => s.shape.elementType hist != type) = true) := fun h => c1 h.2
          have hall : ∀ hist ∈ (s.shape.getElementHistory s.name).intermediates,
              s.shape.elementType hist = type := by
            intro hist hmem
            by_contra hne
            exact c1 (List.any_eq_true.2 ⟨hist, hmem, by simpa using hne⟩)
          rw [if_neg hc]
          by_cases c2 : ((doc.getTopoShape (some obj)).2.isNone
              || (doc.getTopoShape (some obj)).1.isNull) = true
          · rw [if_pos c2]
            constructor
            · intro h
              cases h
            · rintro ⟨_, hown, hnull, _⟩
              simp only [Bool.or_eq_true, Option.isNone_iff_eq_none] at c2
              rcases c2 with c2 | c2
              · exact absurd c2 hown
              · rw [hnull] at c2
                cases c2
          · rw [if_neg c2]
            simp only [Bool.or_eq_true, Option.isNone_iff_eq_none, not_or,
              Bool.not_eq_true] at c2
            by_cases c3 : (doc.getTopoShape (some obj)).1.elementType
                (s.shape.getElementHistory s.name).original = type
            · have hc3 : ¬ (type ≠ NUL ∧ (doc.getTopoShape (some obj)).1.elementType
                  (s.shape.getElementHistory s.name).original ≠ type) := fun h => h.2 c3
              rw [if_neg hc3]
              constructor
              · intro h
                simp only [Except.ok.injEq, Sum.inl.injEq] at h
                exact ⟨hall, c2.1, c2.2, c3, h.symm⟩
              · rintro ⟨_, _, _, _, hm⟩
                rw [hm]
            · have hc3 : type ≠ NUL ∧ (doc.getTopoShape (some obj)).1.elementType
                  (s.shape.getElementHistory s.name).original ≠ type := ⟨htype, c3⟩
              rw [if_pos hc3]
              constructor
              · intro h
                cases h
              · rintro ⟨_, _, _, h3, _⟩
                exact absurd h3 c3

/-- With a non-zero type, `k` passes of the loop body are `k` completed hops. -/
theorem stepsTo_iff_completedHops (doc : Document) (type : Char) (htype : type ≠ NUL) :
    ∀ (k : Nat) (s t : SourceState),
      stepsTo (getElementSourceBody doc type) k s t ↔ completedHops doc type k s t := by
  intro k
  induction k with
  | zero =>
    intro s t
    simp [stepsTo, completedHops]
  | succ k ih =>
    intro s t
    simp only [stepsTo, completedHops]
    constructor
    · rintro ⟨m, hm, hrest⟩
      exact ⟨m, (sourceBody_inl_iff doc type s m htype).1 hm, (ih m t).1 hrest⟩
    · rintro ⟨m, hm, hrest⟩
      exact ⟨m, (sourceBody_inl_iff doc type s m htype).2 hm, (ih m t).2 hrest⟩

/-- C7: with a non-zero type, `getElementSource` returns the pair that is
current after the last completed hop, where a hop completes exactly as the
specification says (`SourceState.hopCompletes`: the tag is non-zero and
resolves to an object, every intermediate name has the starting type, the
resolved shape has an owner and is not null, the pre-image has the starting
type there). The passes of the loop are these hops. If after `k` completed
hops the next one meets a root or an intermediate name of another type, the
pair current then is returned; and whatever is returned is the pair current
after `k` completed hops when no further hop completes, it is `(0, name)`
exactly when no hop completed, and with a non-zero tag the returned name has
the starting type in the shape resolved for the object of that tag. -/
theorem getElementSource_last_completed_hop (doc : Document) (type : Char)
    (owner : Option ObjId) (shape : TopoShape) (name : String) (fuel : Nat)
    (htype : type ≠ NUL) :
    (∀ k s t, stepsTo (getElementSourceBody doc type) k s t ↔ completedHops doc type k s t)
      ∧ (∀ k s, k < fuel → completedHops doc type k (sourceInit owner shape name) s →
          (s.atRoot ∨ s.typeDiverges doc type) →
          getElementSource doc fuel owner shape name type = .ok (s.tag, s.name))
      ∧ (∀ res, getElementSource doc fuel owner shape name type = .ok res →
          ∃ k s, k < fuel
            ∧ completedHops doc type k (sourceInit owner shape name) s
            ∧ (∀ m, ¬ s.hopCompletes doc type m)
            ∧ getElementSourceBody doc type s = .ok (.inr res)
            ∧ res = (s.tag, s.name)
            ∧ (res = (0, name) ↔ k = 0)
            ∧ (res.1 ≠ 0 → s.shape.elementType res.2 = type
                ∧ ∃ prev obj, doc.getObjectByID prev res.1 = some obj
                    ∧ doc.getTopoShape (some obj) = (s.shape, s.owner))) := by
  refine ⟨stepsTo_iff_completedHops doc type htype, ?_, ?_⟩
  · intro k s hk hhops hstop
    have hsteps := (stepsTo_iff_completedHops doc type htype k _ s).2 hhops
    have hbody : getElementSourceBody doc type s = .ok (.inr (s.tag, s.name)) := by
      rcases hstop with h | h
      · exact sourceBody_atRoot doc type s h
      · exact sourceBody_typeDiverges doc type s htype h
    exact (iterate_ok_iff _ fuel _ _).2 ⟨k, hk, s, hsteps, hbody⟩
  · intro res hres
    obtain ⟨k, hk, s, hsteps, hbody⟩ := (iterate_ok_iff _ fuel _ _).1 hres
    have hpair : res = (s.tag, s.name) := sourceBody_inr doc type s res hbody
    have hnone : ∀ m, ¬ s.hopCompletes doc type m := by
      intro m hm
      rw [(sourceBody_inl_iff doc type s m htype).2 hm] at hbody
      cases hbody
    refine ⟨k, s, hk, (stepsTo_iff_completedHops doc type htype k _ s).1 hsteps, hnone, hbody,
      hpair, ?_, ?_⟩
    · cases k with
      | zero =>
        simp only [stepsTo] at hsteps
        subst hsteps
        simp [hpair, sourceInit]
      | succ k =>
        have hinv := sourceSteps_invariant doc type k _ s hsteps
        constructor
        · intro h
          rw [hpair] at h
          exact absurd (congrArg Prod.fst h) hinv.1
        · intro h
          omega
    · intro hne
      cases k with
      | zero =>
        simp only [stepsTo] at hsteps
        subst hsteps
        exact absurd (by simp [hpair, sourceInit]) hne
      | succ k =>
        have hinv := sourceSteps_invariant doc type k _ s hsteps
        rw [hpair]
        exact ⟨hinv.2.1 htype, hinv.2.2⟩

/-- Witness of `getElementSource_last_completed_hop`: from `D` of object 3 the
first hop completes although it has the intermediate name `f`, a face like
`D`; the second hop completes too and `R` of object 1 is a root, so the source
is `(1, R)`. -/
theorem getElementSource_last_completed_hop_witness :
    getElementSource chainDoc 5 (some 3) shape3 "D" 'F' = .ok (1, "R")
      ∧ ∃ k s, k < 5
        ∧ completedHops chainDoc 'F' k (sourceInit (some 3) shape3 "D") s
        ∧ (∀ m, ¬ s.hopCompletes chainDoc 'F' m)
        ∧ getElementSourceBody chainDoc 'F' s = .ok (.inr (1, "R"))
        ∧ ((1, "R") : Int × String) = (s.tag, s.name)
        ∧ (((1, "R") : Int × String) = (0, "D") ↔ k = 0)
        ∧ ((1 : Int) ≠ 0 → s.shape.elementType "R" = 'F'
            ∧ ∃ prev obj, chainDoc.getObjectByID prev 1 = some obj
                ∧ chainDoc.getTopoShape (some obj) = (s.shape, s.owner)) :=
  have h := getElementSource_last_completed_hop chainDoc 'F' (some 3) shape3 "D" 5 (by decide)
  have h1 := h.2.1 2 { owner := some 1, shape := plainShape, name := "R", tag := 1 } (by decide)
    ⟨{ owner := some 2, shape := shape2, name := "X", tag := 2 },
      ⟨by decide, 3, 2, rfl, rfl, by decide, by decide, rfl, by decide, rfl⟩,
      { owner := some 1, shape := plainShape, name := "R", tag := 1 },
      ⟨by decide, 2, 1, rfl, rfl, by decide, by decide, rfl, by decide, rfl⟩, rfl⟩
    (Or.inl rfl)
  ⟨h1, h.2.2 (1, "R") h1⟩

/-! ### Feature::getRelatedElements: the enumeration -/

/-- When the enumeration loop returns, it has appended to `ret` the pairs of
the kept indices among `i, i+1, .., i+todo-1`, in this order. -/
theorem enumerateRelated_ok (doc : Document) (fuel : Nat) (owner : Option ObjId)
    (shape : TopoShape) (shapetype : String) (type : Char) (source : Int × String) :
    ∀ (todo i : Nat) (ret r : List (String × String)),
      enumerateRelated doc fuel owner shape shapetype type source todo i ret = .ok r →
      r = ret ++ ((List.range' i todo).filter
        (keepsIndex doc fuel owner shape shapetype type source)).map (indexPair shape shapetype) := by
  intro todo
  induction todo with
  | zero =>
    intro i ret r h
    simp only [enumerateRelated, Except.ok.injEq] at h
    simp [h]
  | succ todo ih =>
    intro i ret r h
    rw [enumerateRelated] at h
    simp only [List.range'_succ]
    by_cases hm : shape.getElementName (canonicalName shapetype i) = canonicalName shapetype i
    · simp only [hm, reduceIte] at h
      have hk : keepsIndex doc fuel owner shape shapetype type source i = false := by
        simp [keepsIndex, hm]
      rw [List.filter_cons_of_neg (by simp [hk])]
      exact ih (i + 1) ret r h
    · simp only [hm, reduceIte] at h
      cases hsrc : getElementSource doc fuel owner shape
          (shape.getElementName (canonicalName shapetype i)) type with
      | error e => simp [hsrc] at h
      | ok src =>
        simp only [hsrc] at h
        by_cases hs : src = source
        · simp only [hs, reduceIte] at h
          have hk : keepsIndex doc fuel owner shape shapetype type source i = true := by
            simp [keepsIndex, hm, hsrc, hs]
          rw [List.filter_cons_of_pos hk, List.map_cons, ih (i + 1) _ r h]
          simp [indexPair]
        · simp only [hs, reduceIte] at h
          have hk : keepsIndex doc fuel owner shape shapetype type source i = false := by
            simp [keepsIndex, hm, hsrc, hs]
          rw [List.filter_cons_of_neg (by simp [hk])]
          exact ih (i + 1) ret r h

/-- The enumeration loop returns as soon as the source lookup of every tracked
candidate returns. -/
theorem enumerateRelated_returns (doc : Document) (fuel : Nat) (owner : Option ObjId)
    (shape : TopoShape) (shapetype : String) (type : Char) (source : Int × String) :
    ∀ (todo i : Nat) (ret : List (String × String)),
      (∀ j, i ≤ j → j < i + todo →
        shape.getElementName (canonicalName shapetype j) ≠ canonicalName shapetype j →
        ∃ src, getElementSource doc fuel owner shape
          (shape.getElementName (canonicalName shapetype j)) type = .ok src) →
      ∃ r, enumerateRelated doc fuel owner shape shapetype type source todo i ret = .ok r := by
  intro todo
  induction todo with
  | zero =>
    intro i ret _
    exact ⟨ret, rfl⟩
  | succ todo ih =>
    intro i ret hterm
    have hrest : ∀ j, i + 1 ≤ j → j < i + 1 + todo →
        shape.getElementName (canonicalName shapetype j) ≠ canonicalName shapetype j →
        ∃ src, getElementSource doc fuel owner shape
          (shape.getElementName (canonicalName shapetype j)) type = .ok src :=
      fun j h1 h2 h3 => hterm j (by omega) (by omega) h3
    rw [enumerateRelated]
    by_cases hm : shape.getElementName (canonicalName shapetype i) = canonicalName shapetype i
    · simp only [hm, reduceIte]
      exact ih (i + 1) ret hrest
    · obtain ⟨src, hsrc⟩ := hterm i (by omega) (by omega) hm
      simp only [hm, reduceIte, hsrc]
      by_cases hs : src = source
      · simp only [hs, reduceIte]
        exact ih (i + 1) _ hrest
      · simp only [hs, reduceIte]
        exact ih (i + 1) ret hrest

/-- The loop as it is written: on the enumeration path (the fast accessor of the
shape is empty, the element type is recognised, the source tag is non-zero,
the cache misses) and
when the source lookup of every tracked candidate returns, the call returns
the pairs (mapped name, canonical name) of an index list `idx` that is strictly
ascending and holds exactly the `i` in `1..countSubShapes(type)` whose mapped
name differs from the canonical name and whose source (looked up with the
element type if `sameType`, with no type otherwise) is the source of the
query. -/
theorem getRelatedElements_enumeration (doc : Document) (fuel : Nat) (obj : Option ObjId)
    (name : String) (sameType : Bool) (cache : RelationCache)
    (shape : TopoShape) (owner : Option ObjId) (type : TopAbs_ShapeEnum)
    (source : Int × String)
    (hshape : (doc.getTopoShape obj).1 = shape) (howner : resolvedOwner doc obj = owner)
    (htype : doc.shapeType (shape.elementType name) = type)
    (hfast : shape.getRelatedElements name sameType = [])
    (hknown : type ≠ .SHAPE)
    (hsrc : getElementSource doc fuel owner shape name (shape.elementType name) = .ok source)
    (htag : source.1 ≠ 0)
    (hmiss : getRelatedElementsCached cache source.2 source.1 sameType = none)
    (hterm : ∀ i, 1 ≤ i → i ≤ shape.countSubShapes type →
      shape.getElementName (canonicalName (doc.shapeName type) i)
        ≠ canonicalName (doc.shapeName type) i →
      ∃ src, getElementSource doc fuel owner shape
        (shape.getElementName (canonicalName (doc.shapeName type) i))
        (if sameType then shape.elementType name else NUL) = .ok src) :
    ∃ (r : RelatedResult) (idx : List Nat),
      getRelatedElements doc fuel obj name sameType cache = .ok r
      ∧ r.ret = idx.map (fun i => (shape.getElementName (canonicalName (doc.shapeName type) i),
          canonicalName (doc.shapeName type) i))
      ∧ idx.Pairwise (fun i j => i < j)
      ∧ ∀ i, i ∈ idx ↔
          (1 ≤ i ∧ i ≤ shape.countSubShapes type
            ∧ shape.getElementName (canonicalName (doc.shapeName type) i)
                ≠ canonicalName (doc.shapeName type) i
            ∧ getElementSource doc fuel owner shape
                (shape.getElementName (canonicalName (doc.shapeName type) i))
                (if sameType then shape.elementType name else NUL) = .ok source) := by
  obtain ⟨found, hfound⟩ := enumerateRelated_returns doc fuel owner shape (doc.shapeName type)
    (if sameType then shape.elementType name else NUL) source (shape.countSubShapes type) 1 []
    (fun j h1 h2 h3 => hterm j h1 (by omega) h3)
  have heq := enumerateRelated_ok doc fuel owner shape (doc.shapeName type)
    (if sameType then shape.elementType name else NUL) source (shape.countSubShapes type) 1 []
    found hfound
  refine ⟨{ ret := found
            cache := cacheRelatedElements cache source.2 source.1 sameType found
            countCalls := shape.countSubShapes type + 1 },
    (List.range' 1 (shape.countSubShapes type)).filter
      (keepsIndex doc fuel owner shape (doc.shapeName type)
        (if sameType then shape.elementType name else NUL) source), ?_, ?_, ?_, ?_⟩
  · subst hshape howner htype
    unfold getRelatedElements
    simp only [hfast, ne_eq, not_true_eq_false, reduceIte, hknown, hsrc, htag, hmiss, hfound]
  · simp only [heq, List.nil_append]
    rfl
  · exact List.Pairwise.filter _ (List.pairwise_lt_range' 1 _)
  · intro i
    simp only [List.mem_filter, List.mem_range'_1, keepsIndex, Bool.and_eq_true,
      decide_eq_true_eq]
    constructor
    · rintro ⟨⟨h1, h2⟩, h3, h4⟩
      exact ⟨h1, by omega, h3, h4⟩
    · rintro ⟨h1, h2, h3, h4⟩
      exact ⟨⟨h1, by omega⟩, h3, h4⟩

/-- The statement of `getRelatedElements_enumeration` for the faces related to
`A` of object 3 with `sameType`, among `Face1..Face5`. -/
theorem getRelatedElements_enumeration_witness :
    ∃ (r : RelatedResult) (idx : List Nat),
      getRelatedElements chainDoc 5 (some 3) "A" true [] = .ok r
      ∧ r.ret = idx.map (fun i => (shape3.getElementName
            (canonicalName (chainDoc.shapeName .FACE) i),
          canonicalName (chainDoc.shapeName .FACE) i))
      ∧ idx.Pairwise (fun i j => i < j)
      ∧ ∀ i, i ∈ idx ↔
          (1 ≤ i ∧ i ≤ shape3.countSubShapes .FACE
            ∧ shape3.getElementName (canonicalName (chainDoc.shapeName .FACE) i)
                ≠ canonicalName (chainDoc.shapeName .FACE) i
            ∧ getElementSource chainDoc 5 (some 3) shape3
                (shape3.getElementName (canonicalName (chainDoc.shapeName .FACE) i))
                (if true then shape3.elementType "A" else NUL) = .ok (1, "R")) :=
  getRelatedElements_enumeration chainDoc 5 (some 3) "A" true [] shape3 (some 3) .FACE (1, "R")
    rfl rfl (by decide) (by decide) (by decide) (by decide) (by decide) (by decide)
    (fun i h1 h2 _ => by
      have h5 : i ≤ 5 := h2
      interval_cases i <;> exact ⟨_, rfl⟩)

/-- C6 (the code at the failing input): the query for `C` of object 3 with
`sameType=false` takes the enumeration path (empty fast accessor, face type,
source `(2, Y)` with a non-zero tag, empty cache). `Face3` is among the
enumerated faces, its mapped name `C` differs from it and the source of `C`
is the source of the query, and yet the returned list is empty: the loop
looks the candidates up with type 0, which gives `(1, R)` for `C`. -/
theorem getRelatedElements_enumeration_omits_query :
    shape3.getRelatedElements "C" false = []
      ∧ chainDoc.shapeType (shape3.elementType "C") = .FACE
      ∧ getElementSource chainDoc 5 (some 3) shape3 "C" (shape3.elementType "C") = .ok (2, "Y")
      ∧ getRelatedElementsCached [] "Y" 2 false = none
      ∧ 3 ≤ shape3.countSubShapes .FACE
      ∧ canonicalName (chainDoc.shapeName .FACE) 3 = "Face3"
      ∧ shape3.getElementName "Face3" = "C"
      ∧ getRelatedElements chainDoc 5 (some 3) "C" false []
        = .ok { ret := [], cache := [(("Y", 2, false), [])], countCalls := 6 }
      ∧ getElementSource chainDoc 5 (some 3) shape3 "C" NUL = .ok (1, "R") := by
  decide

/-! ### Feature::getRelatedElements: symmetry -/

/-- Symmetry where the two lookups agree: with `sameType=true`, on the
enumeration path without cache entry, for queries by mapped name: let `a` be the mapped name of the
tracked canonical sub-element `j` of the kind of `a`, and let `b` have the
element type of `a`. If the result for `a` contains the pair `(b, cb)`, then
`cb` is a canonical name whose mapped name is `b`, the query for `b` returns a
result that contains the pair of `a`, and `getElementSource` (with the element
type) gives the same identity for `a` and `b`. -/
theorem getRelatedElements_symmetric_sameType (doc : Document) (fuel : Nat)
    (obj : Option ObjId) (a b cb : String) (cache : RelationCache)
    (shape : TopoShape) (owner : Option ObjId) (type : TopAbs_ShapeEnum) (j : Nat)
    (rA : RelatedResult)
    (hshape : (doc.getTopoShape obj).1 = shape) (howner : resolvedOwner doc obj = owner)
    (htype : doc.shapeType (shape.elementType a) = type)
    (hfastA : shape.getRelatedElements a true = [])
    (hfastB : shape.getRelatedElements b true = [])
    (hetB : shape.elementType b = shape.elementType a)
    (hmiss : ∀ n t, getRelatedElementsCached cache n t true = none)
    (hj : 1 ≤ j ∧ j ≤ shape.countSubShapes type)
    (hja : shape.getElementName (canonicalName (doc.shapeName type) j) = a)
    (hne : a ≠ canonicalName (doc.shapeName type) j)
    (hrunA : getRelatedElements doc fuel obj a true cache = .ok rA)
    (hrel : (b, cb) ∈ rA.ret) :
    ∃ rB, getRelatedElements doc fuel obj b true cache = .ok rB
      ∧ (a, canonicalName (doc.shapeName type) j) ∈ rB.ret
      ∧ getElementSource doc fuel owner shape b (shape.elementType b)
          = getElementSource doc fuel owner shape a (shape.elementType a)
      ∧ ∃ i, 1 ≤ i ∧ i ≤ shape.countSubShapes type
          ∧ cb = canonicalName (doc.shapeName type) i
          ∧ b = shape.getElementName (canonicalName (doc.shapeName type) i) := by
  subst hshape howner htype
  unfold getRelatedElements at hrunA
  simp only [hfastA, ne_eq, not_true_eq_false, reduceIte] at hrunA
  by_cases hS : doc.shapeType ((doc.getTopoShape obj).1.elementType a) = .SHAPE
  · simp only [hS, reduceIte, Except.ok.injEq] at hrunA
    subst hrunA
    simp at hrel
  simp only [hS, reduceIte] at hrunA
  cases hsrc : getElementSource doc fuel (resolvedOwner doc obj) (doc.getTopoShape obj).1 a
      ((doc.getTopoShape obj).1.elementType a) with
  | error e => simp [hsrc] at hrunA
  | ok source =>
    simp only [hsrc] at hrunA
    by_cases h0 : source.1 = 0
    · simp only [h0, reduceIte, Except.ok.injEq] at hrunA
      subst hrunA
      simp at hrel
    simp only [h0, reduceIte, hmiss] at hrunA
    cases henum : enumerateRelated doc fuel (resolvedOwner doc obj) (doc.getTopoShape obj).1
        (doc.shapeName (doc.shapeType ((doc.getTopoShape obj).1.elementType a)))
        ((doc.getTopoShape obj).1.elementType a) source
        ((doc.getTopoShape obj).1.countSubShapes
          (doc.shapeType ((doc.getTopoShape obj).1.elementType a))) 1 [] with
    | error e => simp [henum] at hrunA
    | ok found =>
      simp only [henum, Except.ok.injEq] at hrunA
      subst hrunA
      have heq := enumerateRelated_ok _ _ _ _ _ _ _ _ _ _ _ henum
      simp only [List.nil_append] at heq
      simp only at hrel
      rw [heq, List.mem_map] at hrel
      obtain ⟨i, hi, hpair⟩ := hrel
      simp only [List.mem_filter, List.mem_range'_1, keepsIndex, Bool.and_eq_true,
        decide_eq_true_eq] at hi
      simp only [indexPair, Prod.mk.injEq] at hpair
      obtain ⟨hb, hcb⟩ := hpair
      have hsrcB : getElementSource doc fuel (resolvedOwner doc obj) (doc.getTopoShape obj).1 b
          ((doc.getTopoShape obj).1.elementType a) = .ok source := by
        rw [← hb]
        exact hi.2.2
      have hi2 : i ≤ (doc.getTopoShape obj).1.countSubShapes
          (doc.shapeType ((doc.getTopoShape obj).1.elementType a)) := by omega
      refine ⟨{ ret := found
                cache := cacheRelatedElements cache source.2 source.1 true found
                countCalls := (doc.getTopoShape obj).1.countSubShapes
                  (doc.shapeType ((doc.getTopoShape obj).1.elementType a)) + 1 },
        ?_, ?_, ?_, ⟨i, hi.1.1, hi2, hcb.symm, hb.symm⟩⟩
      · unfold getRelatedElements
        simp only [hfastB, ne_eq, not_true_eq_false, reduceIte, hetB, hS, hsrcB, h0, hmiss,
          henum]
      · simp only
        rw [heq, List.mem_map]
        refine ⟨j, ?_, ?_⟩
        · simp only [List.mem_filter, List.mem_range'_1, keepsIndex, Bool.and_eq_true,
            decide_eq_true_eq]
          refine ⟨⟨hj.1, by omega⟩, ?_, ?_⟩
          · rw [hja]
            exact hne
          · rw [hja]
            exact hsrc
        · simp only [indexPair, hja]
      · rw [hetB]
        exact hsrcB

/-- The statement of `getRelatedElements_symmetric_sameType` for `A` and `D` of
object 3: `D` is related to `A`, and `A` to `D`. -/
theorem getRelatedElements_symmetric_sameType_witness :
    ∃ rB, getRelatedElements chainDoc 5 (some 3) "D" true [] = .ok rB
      ∧ ("A", canonicalName (chainDoc.shapeName .FACE) 1) ∈ rB.ret
      ∧ getElementSource chainDoc 5 (some 3) shape3 "D" (shape3.elementType "D")
          = getElementSource chainDoc 5 (some 3) shape3 "A" (shape3.elementType "A")
      ∧ ∃ i, 1 ≤ i ∧ i ≤ shape3.countSubShapes .FACE
          ∧ "Face4" = canonicalName (chainDoc.shapeName .FACE) i
          ∧ "D" = shape3.getElementName (canonicalName (chainDoc.shapeName .FACE) i) :=
  getRelatedElements_symmetric_sameType chainDoc 5 (some 3) "A" "D" "Face4" [] shape3 (some 3)
    .FACE 1
    { ret := [("A", "Face1"), ("D", "Face4")]
      cache := [(("R", 1, true), [("A", "Face1"), ("D", "Face4")])]
      countCalls := 6 }
    rfl rfl (by decide) (by decide) (by decide) (by decide) (fun _ _ => rfl) (by decide)
    (by decide) (by decide) (by decide) (by decide)

/-- C4 (the code at the failing input): with `sameType=false` the result for `A`
in object 3 contains the pair of `B`, the result for `B` is empty, and the two
source identities differ: the query is looked up with its element type, the
candidates of the loop with type 0. -/
theorem getRelatedElements_symmetric_counterexample :
    getRelatedElements chainDoc 5 (some 3) "A" false []
        = .ok { ret := [("A", "Face1"), ("B", "Face2"), ("C", "Face3"), ("D", "Face4")]
                cache := [(("R", 1, false),
                  [("A", "Face1"), ("B", "Face2"), ("C", "Face3"), ("D", "Face4")])]
                countCalls := 6 }
      ∧ shape3.getElementName "Face2" = "B"
      ∧ getRelatedElements chainDoc 5 (some 3) "B" false []
        = .ok { ret := [], cache := [], countCalls := 0 }
      ∧ getElementSource chainDoc 5 (some 3) shape3 "A" (shape3.elementType "A") = .ok (1, "R")
      ∧ getElementSource chainDoc 5 (some 3) shape3 "B" (shape3.elementType "B") = .ok (0, "B") := by
  decide

/-! ### Feature::getRelatedElements: the cache -/

/-- A list stored in the cache is what the next lookup under its key finds. -/
theorem getRelatedElementsCached_store (cache : RelationCache) (name : String) (tag : Int)
    (sameType : Bool) (ret : List (String × String)) :
    getRelatedElementsCached (cacheRelatedElements cache name tag sameType ret) name tag sameType
      = some ret := by
  simp [getRelatedElementsCached, cacheRelatedElements]

/-- Path 1: a non-empty answer of the fast accessor is returned as it is. -/
theorem getRelatedElements_fast (doc : Document) (fuel : Nat) (obj : Option ObjId)
    (name : String) (sameType : Bool) (cache : RelationCache)
    (hfast : (doc.getTopoShape obj).1.getRelatedElements name sameType ≠ []) :
    getRelatedElements doc fuel obj name sameType cache
      = .ok { ret := (doc.getTopoShape obj).1.getRelatedElements name sameType
              cache := cache, countCalls := 0 } := by
  unfold getRelatedElements
  simp only [hfast, ne_eq, not_false_eq_true, reduceIte]

/-- Path 2: an element type that is not recognised gives the empty list. -/
theorem getRelatedElements_unknown (doc : Document) (fuel : Nat) (obj : Option ObjId)
    (name : String) (sameType : Bool) (cache : RelationCache)
    (hfast : (doc.getTopoShape obj).1.getRelatedElements name sameType = [])
    (hS : doc.shapeType ((doc.getTopoShape obj).1.elementType name) = .SHAPE) :
    getRelatedElements doc fuel obj name sameType cache
      = .ok { ret := [], cache := cache, countCalls := 0 } := by
  unfold getRelatedElements
  simp only [hfast, ne_eq, not_true_eq_false, reduceIte, hS]

/-- Path 3: a source with tag 0 gives the empty list. -/
theorem getRelatedElements_root (doc : Document) (fuel : Nat) (obj : Option ObjId)
    (name : String) (sameType : Bool) (cache : RelationCache) (source : Int × String)
    (hfast : (doc.getTopoShape obj).1.getRelatedElements name sameType = [])
    (hS : doc.shapeType ((doc.getTopoShape obj).1.elementType name) ≠ .SHAPE)
    (hsrc : getElementSource doc fuel (resolvedOwner doc obj) (doc.getTopoShape obj).1 name
      ((doc.getTopoShape obj).1.elementType name) = .ok source)
    (h0 : source.1 = 0) :
    getRelatedElements doc fuel obj name sameType cache
      = .ok { ret := [], cache := cache, countCalls := 0 } := by
  unfold getRelatedElements
  simp only [hfast, ne_eq, not_true_eq_false, reduceIte, hS, hsrc, h0]

/-- Path 4: a cache hit is returned as it is. -/
theorem getRelatedElements_hit (doc : Document) (fuel : Nat) (obj : Option ObjId)
    (name : String) (sameType : Bool) (cache : RelationCache) (source : Int × String)
    (cached : List (String × String))
    (hfast : (doc.getTopoShape obj).1.getRelatedElements name sameType = [])
    (hS : doc.shapeType ((doc.getTopoShape obj).1.elementType name) ≠ .SHAPE)
    (hsrc : getElementSource doc fuel (resolvedOwner doc obj) (doc.getTopoShape obj).1 name
      ((doc.getTopoShape obj).1.elementType name) = .ok source)
    (h0 : source.1 ≠ 0)
    (hc : getRelatedElementsCached cache source.2 source.1 sameType = some cached) :
    getRelatedElements doc fuel obj name sameType cache
      = .ok { ret := cached, cache := cache, countCalls := 0 } := by
  unfold getRelatedElements
  simp only [hfast, ne_eq, not_true_eq_false, reduceIte, hS, hsrc, h0, hc]

/-- Path 5: on a cache miss the call is as good as its enumeration loop, whose
list it returns and stores. -/
theorem getRelatedElements_miss (doc : Document) (fuel : Nat) (obj : Option ObjId)
    (name : String) (sameType : Bool) (cache : RelationCache) (source : Int × String)
    (hfast : (doc.getTopoShape obj).1.getRelatedElements name sameType = [])
    (hS : doc.shapeType ((doc.getTopoShape obj).1.elementType name) ≠ .SHAPE)
    (hsrc : getElementSource doc fuel (resolvedOwner doc obj) (doc.getTopoShape obj).1 name
      ((doc.getTopoShape obj).1.elementType name) = .ok source)
    (h0 : source.1 ≠ 0)
    (hc : getRelatedElementsCached cache source.2 source.1 sameType = none) :
    getRelatedElements doc fuel obj name sameType cache
      = match enumerateRelated doc fuel (resolvedOwner doc obj) (doc.getTopoShape obj).1
            (doc.shapeName (doc.shapeType ((doc.getTopoShape obj).1.elementType name)))
            (if sameType then (doc.getTopoShape obj).1.elementType name else NUL) source
            ((doc.getTopoShape obj).1.countSubShapes
              (doc.shapeType ((doc.getTopoShape obj).1.elementType name))) 1 [] with
        | .error e => .error e
        | .ok found =>
          .ok { ret := found
                cache := cacheRelatedElements cache source.2 source.1 sameType found
                countCalls := (doc.getTopoShape obj).1.countSubShapes
                  (doc.shapeType ((doc.getTopoShape obj).1.elementType name)) + 1 } := by
  unfold getRelatedElements
  simp only [hfast, ne_eq, not_true_eq_false, reduceIte, hS, hsrc, h0, hc]

/-- A call whose source lookup yields no value yields none either. -/
theorem getRelatedElements_source_error (doc : Document) (fuel : Nat) (obj : Option ObjId)
    (name : String) (sameType : Bool) (cache : RelationCache) (e : Fault)
    (hfast : (doc.getTopoShape obj).1.getRelatedElements name sameType = [])
    (hS : doc.shapeType ((doc.getTopoShape obj).1.elementType name) ≠ .SHAPE)
    (hsrc : getElementSource doc fuel (resolvedOwner doc obj) (doc.getTopoShape obj).1 name
      ((doc.getTopoShape obj).1.elementType name) = .error e) :
    getRelatedElements doc fuel obj name sameType cache = .error e := by
  unfold getRelatedElements
  simp only [hfast, ne_eq, not_true_eq_false, reduceIte, hS, hsrc]

/-- C5: when a call of `getRelatedElements` has returned, the same call on the
cache that it left returns the same ordered list without a single
`countSubShapes` call of the enumeration loop. Whenever the call gets as far as
the cache (empty fast accessor, recognised type, non-zero source tag), the list
of the second call is the cache entry under (source name, source tag,
sameType); and if the first call missed the cache, it ran the enumeration and
stored that entry itself. -/
theorem getRelatedElements_second_call (doc : Document) (fuel : Nat) (obj : Option ObjId)
    (name : String) (sameType : Bool) (cache : RelationCache) (r1 : RelatedResult)
    (h1 : getRelatedElements doc fuel obj name sameType cache = .ok r1) :
    ∃ r2, getRelatedElements doc fuel obj name sameType r1.cache = .ok r2
      ∧ r2.ret = r1.ret ∧ r2.countCalls = 0
      ∧ ∀ source, (doc.getTopoShape obj).1.getRelatedElements name sameType = [] →
          doc.shapeType ((doc.getTopoShape obj).1.elementType name) ≠ .SHAPE →
          getElementSource doc fuel (resolvedOwner doc obj) (doc.getTopoShape obj).1 name
            ((doc.getTopoShape obj).1.elementType name) = .ok source →
          source.1 ≠ 0 →
          getRelatedElementsCached r1.cache source.2 source.1 sameType = some r2.ret
            ∧ (getRelatedElementsCached cache source.2 source.1 sameType = none →
                r1.cache = cacheRelatedElements cache source.2 source.1 sameType r1.ret
                  ∧ r1.countCalls = (doc.getTopoShape obj).1.countSubShapes
                      (doc.shapeType ((doc.getTopoShape obj).1.elementType name)) + 1) := by
  by_cases hfast : (doc.getTopoShape obj).1.getRelatedElements name sameType = []
  · by_cases hS : doc.shapeType ((doc.getTopoShape obj).1.elementType name) = .SHAPE
    · rw [getRelatedElements_unknown doc fuel obj name sameType cache hfast hS] at h1
      cases h1
      exact ⟨_, getRelatedElements_unknown doc fuel obj name sameType cache hfast hS, rfl, rfl,
        fun _ _ h => absurd hS h⟩
    · cases hsrc : getElementSource doc fuel (resolvedOwner doc obj) (doc.getTopoShape obj).1
          name ((doc.getTopoShape obj).1.elementType name) with
      | error e =>
        rw [getRelatedElements_source_error doc fuel obj name sameType cache e hfast hS hsrc]
          at h1
        cases h1
      | ok source =>
        by_cases h0 : source.1 = 0
        · rw [getRelatedElements_root doc fuel obj name sameType cache source hfast hS hsrc h0]
            at h1
          cases h1
          refine ⟨_, getRelatedElements_root doc fuel obj name sameType cache source hfast hS
            hsrc h0, rfl, rfl, ?_⟩
          intro source2 _ _ hs2 hne
          cases hs2
          exact absurd h0 hne
        · cases hc : getRelatedElementsCached cache source.2 source.1 sameType with
          | some cached =>
            rw [getRelatedElements_hit doc fuel obj name sameType cache source cached hfast hS
              hsrc h0 hc] at h1
            cases h1
            refine ⟨_, getRelatedElements_hit doc fuel obj name sameType cache source cached
              hfast hS hsrc h0 hc, rfl, rfl, ?_⟩
            intro source2 _ _ hs2 _
            cases hs2
            exact ⟨hc, fun h => by rw [hc] at h; cases h⟩
          | none =>
            rw [getRelatedElements_miss doc fuel obj name sameType cache source hfast hS hsrc
              h0 hc] at h1
            split at h1
            · cases h1
            · rename_i found _
              cases h1
              refine ⟨_, getRelatedElements_hit doc fuel obj name sameType _ source found
                hfast hS hsrc h0 (getRelatedElementsCached_store _ _ _ _ _), rfl, rfl, ?_⟩
              intro source2 _ _ hs2 _
              cases hs2
              exact ⟨getRelatedElementsCached_store _ _ _ _ _, fun _ => ⟨rfl, rfl⟩⟩
  · rw [getRelatedElements_fast doc fuel obj name sameType cache hfast] at h1
    cases h1
    exact ⟨_, getRelatedElements_fast doc fuel obj name sameType cache hfast, rfl, rfl,
      fun _ h => absurd h hfast⟩

/-- Witness of `getRelatedElements_second_call`: the query for `A` in object 3
enumerates on an empty cache and is answered from the stored entry afterwards. -/
theorem getRelatedElements_second_call_witness :
    ∃ r2, getRelatedElements chainDoc 5 (some 3) "A" true
          [(("R", 1, true), [("A", "Face1"), ("D", "Face4")])] = .ok r2
      ∧ r2.ret = [("A", "Face1"), ("D", "Face4")] ∧ r2.countCalls = 0
      ∧ ∀ source, (chainDoc.getTopoShape (some 3)).1.getRelatedElements "A" true = [] →
          chainDoc.shapeType ((chainDoc.getTopoShape (some 3)).1.elementType "A") ≠ .SHAPE →
          getElementSource chainDoc 5 (resolvedOwner chainDoc (some 3))
            (chainDoc.getTopoShape (some 3)).1 "A"
            ((chainDoc.getTopoShape (some 3)).1.elementType "A") = .ok source →
          source.1 ≠ 0 →
          getRelatedElementsCached [(("R", 1, true), [("A", "Face1"), ("D", "Face4")])]
              source.2 source.1 true = some r2.ret
            ∧ (getRelatedElementsCached [] source.2 source.1 true = none →
                [(("R", 1, true), [("A", "Face1"), ("D", "Face4")])]
                    = cacheRelatedElements [] source.2 source.1 true
                        [("A", "Face1"), ("D", "Face4")]
                  ∧ 6 = (chainDoc.getTopoShape (some 3)).1.countSubShapes
                      (chainDoc.shapeType ((chainDoc.getTopoShape (some 3)).1.elementType "A"))
                      + 1) :=
  getRelatedElements_second_call chainDoc 5 (some 3) "A" true []
    { ret := [("A", "Face1"), ("D", "Face4")]
      cache := [(("R", 1, true), [("A", "Face1"), ("D", "Face4")])]
      countCalls := 6 }
    (by decide)

/-! ### Part::checkIntersection -/

/-- On the fuse path the explorer logic answers true exactly for one solid. -/
theorem checkIntersection_fuse_path (K : Kernel) (first second : TopoDS_Shape) (quick : Bool)
    (h1 : (K.IsOut first second && !true) = false)
    (h2 : (quick && !K.IsOut first second) = false) :
    checkIntersection K first second quick true = true ↔
      (K.Fuse first second).IsDone = true ∧ K.IsNull (K.Fuse first second).Shape = false
        ∧ (K.solids (K.Fuse first second).Shape).length = 1 := by
  unfold checkIntersection
  simp only [h1, h2, Bool.false_eq_true, reduceIte]
  cases hd : (K.Fuse first second).IsDone <;> cases hn : K.IsNull (K.Fuse first second).Shape
    <;> simp [TopExp_Explorer.More, TopExp_Explorer.Next]
  cases hs : K.solids (K.Fuse first second).Shape with
  | nil => simp
  | cons a rest => cases rest <;> simp

/-- C9: on the precise path, with `touch_is_intersection=true` the answer is
true exactly when the fuse is done, its shape is not null and it has exactly
one solid; with `touch_is_intersection=false` it is true exactly when the
common is done, its shape is not null and it has at least one solid. -/
theorem checkIntersection_precise (K : Kernel) (first second : TopoDS_Shape)
    (quick touch_is_intersection : Bool)
    (hprecise : reachesPrecisePath K first second quick touch_is_intersection) :
    (touch_is_intersection = true →
        (checkIntersection K first second quick touch_is_intersection = true ↔
          (K.Fuse first second).IsDone = true ∧ K.IsNull (K.Fuse first second).Shape = false
            ∧ (K.solids (K.Fuse first second).Shape).length = 1))
      ∧ (touch_is_intersection = false →
        (checkIntersection K first second quick touch_is_intersection = true ↔
          (K.Common first second).IsDone = true ∧ K.IsNull (K.Common first second).Shape = false
            ∧ 1 ≤ (K.solids (K.Common first second).Shape).length)) := by
  obtain ⟨h1, h2⟩ := hprecise
  constructor
  · intro ht
    subst ht
    exact checkIntersection_fuse_path K first second quick h1 h2
  · intro ht
    subst ht
    unfold checkIntersection
    simp only [h1, h2, Bool.false_eq_true, reduceIte]
    cases hd : (K.Common first second).IsDone <;>
      cases hn : K.IsNull (K.Common first second).Shape
      <;> simp [TopExp_Explorer.More]
    cases hs : K.solids (K.Common first second).Shape <;> simp

/-- Witness of `checkIntersection_precise`: two overlapping solids, not quick. -/
theorem checkIntersection_precise_witness :
    (true = true →
        (checkIntersection overlapKernel 1 2 false true = true ↔
          (overlapKernel.Fuse 1 2).IsDone = true
            ∧ overlapKernel.IsNull (overlapKernel.Fuse 1 2).Shape = false
            ∧ (overlapKernel.solids (overlapKernel.Fuse 1 2).Shape).length = 1))
      ∧ (true = false →
        (checkIntersection overlapKernel 1 2 false true = true ↔
          (overlapKernel.Common 1 2).IsDone = true
            ∧ overlapKernel.IsNull (overlapKernel.Common 1 2).Shape = false
            ∧ 1 ≤ (overlapKernel.solids (overlapKernel.Common 1 2).Shape).length)) :=
  checkIntersection_precise overlapKernel 1 2 false true ⟨by decide, by decide⟩

/-- C8 (as amended): for shapes with disjoint bounding boxes the answer is
false for both values of `quick` when `touch_is_intersection=false`; with
`touch_is_intersection=true` and `quick=false` the answer is that of the fuse:
true exactly when the fuse is done, not null and has exactly one solid. -/
theorem checkIntersection_disjoint_boxes (K : Kernel) (first second : TopoDS_Shape)
    (hout : K.IsOut first second = true) :
    (∀ quick, checkIntersection K first second quick false = false)
      ∧ (checkIntersection K first second false true = true ↔
          (K.Fuse first second).IsDone = true ∧ K.IsNull (K.Fuse first second).Shape = false
            ∧ (K.solids (K.Fuse first second).Shape).length = 1) := by
  constructor
  · intro quick
    simp [checkIntersection, hout]
  · exact checkIntersection_fuse_path K first second false (by simp) (by simp)

/-- Witness of `checkIntersection_disjoint_boxes`: a solid and a face apart. -/
theorem checkIntersection_disjoint_boxes_witness :
    (∀ quick, checkIntersection apartKernel 1 2 quick false = false)
      ∧ (checkIntersection apartKernel 1 2 false true = true ↔
          (apartKernel.Fuse 1 2).IsDone = true
            ∧ apartKernel.IsNull (apartKernel.Fuse 1 2).Shape = false
            ∧ (apartKernel.solids (apartKernel.Fuse 1 2).Shape).length = 1) :=
  checkIntersection_disjoint_boxes apartKernel 1 2 (by decide)

/-- C8 (counterexample): the bounding boxes of a solid and of a face apart from
it are disjoint, and the precise check with `touch_is_intersection=true`
answers true, since their fuse has exactly one solid. -/
theorem checkIntersection_disjoint_boxes_counterexample :
    apartKernel.IsOut 1 2 = true ∧ checkIntersection apartKernel 1 2 false true = true := by
  decide

/-! ### Part::findAllFacesCutBy -/

/-- C10 (the code at the failing input): an intersection point at distance
`1e-5` from the centroid, on the side the direction points to, is farther from
the centroid than `Precision::Confusion()` and yet gets no entry, because its
squared distance `1e-10` is compared with the tolerance `1e-7`. -/
theorem findAllFacesCutBy_near_point_dropped :
    Precision.Confusion * Precision.Confusion < origin.SquareDistance nearPoint
      ∧ findAllFacesCutBy (fun _ _ => true) (fun _ _ => false) origin
          [{ Pnt := nearPoint, Face := 7 }] [] = [] := by
  constructor
  · norm_num [Precision.Confusion, gp_Pnt.SquareDistance, origin, nearPoint]
  · have h : origin.SquareDistance nearPoint < Precision.Confusion := by
      norm_num [Precision.Confusion, gp_Pnt.SquareDistance, origin, nearPoint]
    simp [findAllFacesCutBy, h]

/-! ### FilletBase::onUpdateElementReference -/

/-- The update loop, where no scanned sub-value is out of the range of `int`,
returns a list of the old length in which exactly the entries with an index
among `i, .., i+todo-1` and below the number of sub-values are updated. -/
theorem updateEdgeIds_spec (subs : List String) :
    ∀ (todo i : Nat) (values : List FilletElement),
      (∀ j, i ≤ j → j < i + todo → j < subs.length → scannedIndex (subs.getD j "") ≠ none) →
      ∃ r, updateEdgeIds subs todo i values = some r ∧ r.length = values.length
        ∧ ∀ j, r[j]? = (values[j]?).map (fun v =>
            if i ≤ j ∧ j < i + todo ∧ j < subs.length then updatedElement subs j v else v) := by
  intro todo
  induction todo with
  | zero =>
    intro i values _
    refine ⟨values, rfl, rfl, ?_⟩
    intro j
    have hno : ¬ (i ≤ j ∧ j < i + 0 ∧ j < subs.length) := by omega
    simp only [hno, reduceIte]
    cases values[j]? <;> rfl
  | succ todo ih =>
    intro i values hdef
    rw [updateEdgeIds]
    by_cases hlen : subs.length ≤ i
    · simp only [hlen, reduceIte]
      refine ⟨values, rfl, rfl, ?_⟩
      intro j
      have hno : ¬ (i ≤ j ∧ j < i + (todo + 1) ∧ j < subs.length) := by omega
      simp only [hno, reduceIte]
      cases values[j]? <;> rfl
    · simp only [hlen, reduceIte]
      have hrest : ∀ j, i + 1 ≤ j → j < i + 1 + todo → j < subs.length →
          scannedIndex (subs.getD j "") ≠ none :=
        fun j h1 h2 h3 => hdef j (by omega) (by omega) h3
      cases hscan : scannedIndex (subs.getD i "") with
      | none => exact absurd hscan (hdef i (by omega) (by omega) (by omega))
      | some idx =>
        simp only
        by_cases hidx : idx = 0
        · simp only [hidx, ne_eq, not_true_eq_false, reduceIte]
          obtain ⟨r, hr, hl, hget⟩ := ih (i + 1) values hrest
          refine ⟨r, hr, hl, ?_⟩
          intro j
          rw [hget j]
          cases values[j]? with
          | none => rfl
          | some v =>
            simp only [Option.map_some']
            by_cases hj : j = i
            · subst hj
              have h1 : ¬ (j + 1 ≤ j ∧ j < j + 1 + todo ∧ j < subs.length) := by omega
              have h2 : j ≤ j ∧ j < j + (todo + 1) ∧ j < subs.length := by omega
              rw [if_neg h1, if_pos h2, updatedElement, hscan]
              simp [hidx]
            · have hiff : (i + 1 ≤ j ∧ j < i + 1 + todo ∧ j < subs.length) ↔
                  (i ≤ j ∧ j < i + (todo + 1) ∧ j < subs.length) := by omega
              simp only [hiff]
        · simp only [ne_eq, hidx, not_false_eq_true, reduceIte]
          obtain ⟨r, hr, hl, hget⟩ := ih (i + 1)
            (values.modify (fun v => { v with edgeid := idx }) i) hrest
          refine ⟨r, hr, by rw [hl, List.length_modify], ?_⟩
          intro j
          rw [hget j, List.getElem?_modify]
          cases values[j]? with
          | none => rfl
          | some v =>
            simp only [Option.map_eq_map, Option.map_some']
            by_cases hj : i = j
            · subst hj
              have h1 : ¬ (i + 1 ≤ i ∧ i < i + 1 + todo ∧ i < subs.length) := by omega
              have h2 : i ≤ i ∧ i < i + (todo + 1) ∧ i < subs.length := by omega
              rw [if_pos rfl, if_neg h1, if_pos h2, updatedElement, hscan]
              simp [hidx]
            · have hiff : (i + 1 ≤ j ∧ j < i + 1 + todo ∧ j < subs.length) ↔
                  (i ≤ j ∧ j < i + (todo + 1) ∧ j < subs.length) := by omega
              simp only [hj, reduceIte, hiff]

/-- C11: for `prop == &EdgeLinks` on an attached object, and sub-values whose
numbers an `int` can hold, the update returns; below the numbers of values and
of sub-values, an entry keeps its `edgeid` when `sscanf(..,"Edge%d",&idx)`
leaves `idx` at 0 and gets `idx` as its `edgeid` otherwise, whatever the
entries before it were; the entries from the number of sub-values on, the
radii of every entry, the length of the list and the other properties are
unchanged. -/
theorem onUpdateElementReference_edgeids (fb : FilletBase)
    (hname : fb.nameInDocument ≠ none)
    (hdef : ∀ i, i < fb.Edges.length → i < fb.EdgeLinksSubValues.length →
      scannedIndex (fb.EdgeLinksSubValues.getD i "") ≠ none) :
    ∃ values, onUpdateElementReference fb .EdgeLinks = some { fb with Edges := values }
      ∧ values.length = fb.Edges.length
      ∧ ∀ i v, fb.Edges[i]? = some v →
          ∃ w, values[i]? = some w ∧ w.radius1 = v.radius1 ∧ w.radius2 = v.radius2
            ∧ (fb.EdgeLinksSubValues.length ≤ i → w.edgeid = v.edgeid)
            ∧ (i < fb.EdgeLinksSubValues.length →
                ∀ idx, scannedIndex (fb.EdgeLinksSubValues.getD i "") = some idx →
                  (idx = 0 → w.edgeid = v.edgeid) ∧ (idx ≠ 0 → w.edgeid = idx)) := by
  obtain ⟨r, hr, hl, hget⟩ := updateEdgeIds_spec fb.EdgeLinksSubValues fb.Edges.length 0
    fb.Edges (fun j _ h2 h3 => hdef j (by omega) h3)
  have hattached : fb.nameInDocument.isNone = false := by
    cases h : fb.nameInDocument with
    | none => exact absurd h hname
    | some _ => rfl
  refine ⟨r, ?_, hl, ?_⟩
  · simp [onUpdateElementReference, hattached, hr]
  · intro i v hv
    have hi : i < fb.Edges.length := by
      rcases Nat.lt_or_ge i fb.Edges.length with h | h
      · exact h
      · rw [List.getElem?_eq_none h] at hv
        cases hv
    have hri := hget i
    rw [hv] at hri
    simp only [Option.map_some'] at hri
    refine ⟨_, hri, ?_⟩
    by_cases hs : i < fb.EdgeLinksSubValues.length
    · have hc : 0 ≤ i ∧ i < 0 + fb.Edges.length ∧ i < fb.EdgeLinksSubValues.length := by omega
      simp only [hc, and_self, reduceIte, updatedElement]
      cases hscan : scannedIndex (fb.EdgeLinksSubValues.getD i "") with
      | none => exact absurd hscan (hdef i hi hs)
      | some idx =>
        by_cases hidx : idx = 0
        · subst hidx
          simp
        · simp only [ne_eq, hidx, not_false_eq_true, reduceIte, true_and]
          refine ⟨fun h => by omega, fun _ idx2 h2 => ?_⟩
          simp only [Option.some.injEq] at h2
          subst h2
          exact ⟨fun h => absurd h hidx, fun _ => rfl⟩
    · have hc : ¬ (0 ≤ i ∧ i < 0 + fb.Edges.length ∧ i < fb.EdgeLinksSubValues.length) := by
        omega
      simp only [hc, reduceIte, true_and]
      exact ⟨fun _ => trivial, fun h => absurd h hs⟩

/-- Witness of `onUpdateElementReference_edgeids`: the second link of
`brokenFillet` does not parse, the first and the third do. -/
theorem onUpdateElementReference_edgeids_witness :
    ∃ values, onUpdateElementReference brokenFillet .EdgeLinks
        = some { brokenFillet with Edges := values }
      ∧ values.length = brokenFillet.Edges.length
      ∧ ∀ i v, brokenFillet.Edges[i]? = some v →
          ∃ w, values[i]? = some w ∧ w.radius1 = v.radius1 ∧ w.radius2 = v.radius2
            ∧ (brokenFillet.EdgeLinksSubValues.length ≤ i → w.edgeid = v.edgeid)
            ∧ (i < brokenFillet.EdgeLinksSubValues.length →
                ∀ idx, scannedIndex (brokenFillet.EdgeLinksSubValues.getD i "") = some idx →
                  (idx = 0 → w.edgeid = v.edgeid) ∧ (idx ≠ 0 → w.edgeid = idx)) :=
  onUpdateElementReference_edgeids brokenFillet (by decide)
    (fun i h1 _ => by
      have h3 : i < 3 := h1
      interval_cases i <;> decide)

/-! ### FilletBase::syncEdgeLink and the way back -/

/-- The sub-values of `syncEdgeLink` are `Edge<edgeid>`, one per entry, in the
order of the entries. -/
theorem edgeLinkSubs_eq (values : List FilletElement) (subs : List String) :
    edgeLinkSubs values subs = subs ++ values.map (fun info => "Edge" ++ toString info.edgeid) := by
  induction values generalizing subs with
  | nil => simp [edgeLinkSubs]
  | cons info rest ih => simp [edgeLinkSubs, ih]

/-- The character of a decimal digit is a digit character with that value. -/
theorem digitChar_decimal (k : Nat) (h : k < 10) :
    (Nat.digitChar k).isDigit = true ∧ (Nat.digitChar k).toNat - 48 = k := by
  interval_cases k <;> decide

/-- The value of a run of digits that is extended by one digit. -/
theorem decimalValue_append (xs : List Char) (c : Char) :
    decimalValue (xs ++ [c]) = 10 * decimalValue xs + (c.toNat - 48) := by
  simp [decimalValue, List.foldl_append]

/-- The decimal digits that `Nat.toDigitsCore` puts in front of `ds`: at least
one, all of them digit characters, and they denote `n`. -/
theorem toDigitsCore_decimal : ∀ (fuel n : Nat) (ds : List Char), n < fuel →
    ∃ xs, Nat.toDigitsCore 10 fuel n ds = xs ++ ds ∧ xs ≠ []
      ∧ (∀ c ∈ xs, c.isDigit = true) ∧ decimalValue xs = n := by
  intro fuel
  induction fuel with
  | zero => intro n ds h; omega
  | succ fuel ih =>
    intro n ds h
    have hd := digitChar_decimal (n % 10) (Nat.mod_lt n (by decide))
    rw [Nat.toDigitsCore]
    by_cases h0 : n / 10 = 0
    · simp only [h0, reduceIte]
      refine ⟨[Nat.digitChar (n % 10)], rfl, by simp, ?_, ?_⟩
      · intro c hc
        simp only [List.mem_singleton] at hc
        rw [hc]
        exact hd.1
      · have hn : n % 10 = n := Nat.mod_eq_of_lt (by omega)
        simp only [decimalValue, List.foldl_cons, List.foldl_nil, hd.2]
        omega
    · simp only [h0, reduceIte]
      obtain ⟨xs, hxs, hne, hdig, hval⟩ := ih (n / 10) (Nat.digitChar (n % 10) :: ds)
        (by omega)
      refine ⟨xs ++ [Nat.digitChar (n % 10)], by rw [hxs]; simp, by simp, ?_, ?_⟩
      · intro c hc
        rcases List.mem_append.1 hc with h1 | h1
        · exact hdig c h1
        · simp only [List.mem_singleton] at h1
          rw [h1]
          exact hd.1
      · rw [decimalValue_append, hval, hd.2]
        omega

/-- The characters of the decimal text of a natural number. -/
theorem toString_nat_decimal (n : Nat) :
    (toString n).data ≠ [] ∧ (∀ c ∈ (toString n).data, c.isDigit = true)
      ∧ decimalValue (toString n).data = n := by
  obtain ⟨xs, hxs, hne, hdig, hval⟩ := toDigitsCore_decimal (n + 1) n [] (by omega)
  have hdata : (toString n).data = xs := by
    show Nat.toDigits 10 n = xs
    rw [Nat.toDigits, hxs, List.append_nil]
  rw [hdata]
  exact ⟨hne, hdig, hval⟩

/-- A digit character is no white space, no sign and not NUL. -/
theorem isDigit_plain (c : Char) (h : c.isDigit = true) :
    isspace c = false ∧ c ≠ '-' ∧ c ≠ '+' ∧ (c != NUL) = true := by
  refine ⟨?_, ?_, ?_, ?_⟩
  · by_contra hs
    simp only [isspace, Bool.or_eq_true, beq_iff_eq, Bool.not_eq_false] at hs
    rcases hs with ((((hs | hs) | hs) | hs) | hs) | hs <;> (subst hs; revert h; decide)
  · intro hs
    subst hs
    revert h
    decide
  · intro hs
    subst hs
    revert h
    decide
  · simp only [bne_iff_ne, ne_eq]
    intro hs
    subst hs
    revert h
    decide

/-- `%d` on a run of digits that ends the input. -/
theorem scanInt_digits (ds : List Char) (hne : ds ≠ [])
    (hdig : ∀ c ∈ ds, c.isDigit = true) (neg : Bool)
    (hrange : INT_MIN ≤ (if neg then -(decimalValue ds : Int) else (decimalValue ds : Int))
      ∧ (if neg then -(decimalValue ds : Int) else (decimalValue ds : Int)) ≤ INT_MAX) :
    scanInt (if neg then '-' :: ds else ds)
      = .assigned (if neg then -(decimalValue ds : Int) else (decimalValue ds : Int)) := by
  obtain ⟨d, rest, rfl⟩ := List.exists_cons_of_ne_nil hne
  have hd := isDigit_plain d (hdig d (List.mem_cons_self _ _))
  have htake : (d :: rest).takeWhile Char.isDigit = d :: rest :=
    List.takeWhile_eq_self_iff.2 hdig
  cases neg with
  | true =>
    have hdrop : ('-' :: d :: rest).dropWhile isspace = '-' :: d :: rest :=
      List.dropWhile_cons_of_neg (by decide)
    simp only [reduceIte] at hrange ⊢
    simp only [scanInt, hdrop, scanSign, reduceIte, htake, List.isEmpty_cons,
      Bool.false_eq_true, hrange, and_self]
  | false =>
    have hdrop : (d :: rest).dropWhile isspace = d :: rest :=
      List.dropWhile_cons_of_neg (by simp [hd.1])
    simp only [Bool.false_eq_true, reduceIte] at hrange ⊢
    simp only [scanInt, hdrop, scanSign, hd.2.1, hd.2.2.1, reduceIte, htake, List.isEmpty_cons,
      Bool.false_eq_true, hrange, and_self]

/-- The sub-value that `syncEdgeLink` writes for an `int` is scanned back to
that `int`. -/
theorem scannedIndex_toString (n : Int) (hrange : INT_MIN ≤ n ∧ n ≤ INT_MAX) :
    scannedIndex ("Edge" ++ toString n) = some n := by
  have key : ∀ (ds : List Char) (neg : Bool), ds ≠ [] → (∀ c ∈ ds, c.isDigit = true) →
      (if neg then -(decimalValue ds : Int) else (decimalValue ds : Int)) = n →
      ∀ t : String, t.data = (if neg then '-' :: ds else ds) →
      scannedIndex ("Edge" ++ t) = some n := by
    intro ds neg hne hdig hval t ht
    have hplain : ∀ c ∈ (if neg then '-' :: ds else ds), (c != NUL) = true := by
      intro c hc
      cases neg with
      | true =>
        simp only [reduceIte, List.mem_cons] at hc
        rcases hc with hc | hc
        · subst hc
          decide
        · exact (isDigit_plain c (hdig c hc)).2.2.2
      | false =>
        simp only [Bool.false_eq_true, reduceIte] at hc
        exact (isDigit_plain c (hdig c hc)).2.2.2
    have hc : c_str ("Edge" ++ t) = 'E' :: 'd' :: 'g' :: 'e' :: (if neg then '-' :: ds else ds) := by
      simp only [c_str, String.data_append, ht]
      apply List.takeWhile_eq_self_iff.2
      intro c hc
      simp only [List.cons_append, List.nil_append, List.mem_cons] at hc
      rcases hc with hc | hc | hc | hc | hc
      · subst hc; decide
      · subst hc; decide
      · subst hc; decide
      · subst hc; decide
      · exact hplain c hc
    have hscan := scanInt_digits ds hne hdig neg (by rw [hval]; exact hrange)
    unfold scannedIndex sscanfEdge
    rw [hc]
    simp only [matchLiteral, reduceIte, hscan, hval]
  cases n with
  | ofNat m =>
    obtain ⟨hne, hdig, hval⟩ := toString_nat_decimal m
    exact key (toString m).data false hne hdig (by simp [hval]) (toString (Int.ofNat m)) rfl
  | negSucc m =>
    obtain ⟨hne, hdig, hval⟩ := toString_nat_decimal (m + 1)
    refine key (toString (m + 1)).data true hne hdig ?_ (toString (Int.negSucc m)) rfl
    simp only [reduceIte, hval]
    rfl

/-- On the sub-values `Edge<edgeid>` of its own entries the update loop changes
nothing. -/
theorem updateEdgeIds_own_subs (values : List FilletElement)
    (hint : ∀ v ∈ values, INT_MIN ≤ v.edgeid ∧ v.edgeid ≤ INT_MAX) :
    updateEdgeIds (values.map (fun info => "Edge" ++ toString info.edgeid)) values.length 0 values
      = some values := by
  have hscan : ∀ j v, values[j]? = some v →
      scannedIndex ((values.map (fun info => "Edge" ++ toString info.edgeid)).getD j "")
        = some v.edgeid := by
    intro j v hv
    rw [List.getD_eq_getElem?_getD, List.getElem?_map, hv]
    exact scannedIndex_toString v.edgeid (hint v (List.getElem?_mem hv))
  obtain ⟨r, hr, _, hget⟩ := updateEdgeIds_spec
    (values.map (fun info => "Edge" ++ toString info.edgeid)) values.length 0 values
    (fun j _ h2 _ => by
      have hj : j < values.length := by omega
      rw [hscan j values[j] (List.getElem?_eq_getElem hj)]
      simp)
  rw [hr]
  congr 1
  apply List.ext_getElem?
  intro j
  rw [hget j]
  cases hv : values[j]? with
  | none => rfl
  | some v =>
    simp only [Option.map_some', Option.some.injEq]
    split_ifs
    · rw [updatedElement, hscan j v hv]
      by_cases h0 : v.edgeid = 0 <;> simp [h0]
    · rfl

/-- C13: for a non-empty list of entries whose `edgeid` are `int` values (of
any sign, 0 included) and a non-null `Base`, `syncEdgeLink` writes the
sub-values `Edge<edgeid>`, one per entry in the order of the entries, links
them to `Base` and leaves the entries alone; `onUpdateElementReference` on the
outcome returns and changes nothing: every `edgeid`, the length and the order
of the entries are as before. -/
theorem syncEdgeLink_roundtrip (fb : FilletBase) (prop : FilletProperty)
    (hbase : fb.Base ≠ none) (hne : fb.Edges ≠ [])
    (hint : ∀ v ∈ fb.Edges, INT_MIN ≤ v.edgeid ∧ v.edgeid ≤ INT_MAX) :
    (syncEdgeLink fb).EdgeLinksSubValues
        = fb.Edges.map (fun info => "Edge" ++ toString info.edgeid)
      ∧ (syncEdgeLink fb).EdgeLinksValue = fb.Base
      ∧ (syncEdgeLink fb).Edges = fb.Edges
      ∧ onUpdateElementReference (syncEdgeLink fb) prop = some (syncEdgeLink fb) := by
  have hb : fb.Base.isNone = false := by
    cases h : fb.Base with
    | none => exact absurd h hbase
    | some _ => rfl
  have hl : (fb.Edges.length == 0) = false := by
    cases h : fb.Edges with
    | nil => exact absurd h hne
    | cons _ _ => rfl
  have hsync : syncEdgeLink fb = { fb with
      EdgeLinksValue := fb.Base
      EdgeLinksSubValues := fb.Edges.map (fun info => "Edge" ++ toString info.edgeid) } := by
    simp [syncEdgeLink, hb, hl, edgeLinkSubs_eq]
  rw [hsync]
  refine ⟨rfl, rfl, rfl, ?_⟩
  unfold onUpdateElementReference
  split_ifs
  · rfl
  · simp only [updateEdgeIds_own_subs fb.Edges hint]

/-- Witness of `syncEdgeLink_roundtrip`: edge indices 12, 0 and -5. -/
theorem syncEdgeLink_roundtrip_witness :
    (syncEdgeLink signedFillet).EdgeLinksSubValues
        = signedFillet.Edges.map (fun info => "Edge" ++ toString info.edgeid)
      ∧ (syncEdgeLink signedFillet).EdgeLinksValue = signedFillet.Base
      ∧ (syncEdgeLink signedFillet).Edges = signedFillet.Edges
      ∧ onUpdateElementReference (syncEdgeLink signedFillet) .EdgeLinks
        = some (syncEdgeLink signedFillet) :=
  syncEdgeLink_roundtrip signedFillet .EdgeLinks (by decide) (by decide) (by decide)

/-! ### Feature::getTopoShape: re-tagging -/

end PartFeature
